import Mathlib

/-!
# Policy-composed singleton (`src/singleton.cpp`)

A shallow embedding of the singleton templates of `src/singleton.cpp`.

* The process-wide (static-storage) variables of the class templates are the fields of
  `Statics`; everything a constructor, destructor or `operator new` can touch is in `World`.
* An object is identified by its address (`Addr`): the two objects with static storage
  duration have a fixed address each, a heap object has the number of its allocation.
* Whether a run of `T::T()` completes or throws is chosen by the environment, call by call
  (`CtorBehaviour`); `operator new` itself is taken to succeed.
* `getInstance` returns an `Outcome` together with the successor state.
* Threads that call `getInstance` concurrently are interleaved statement by statement
  (`Conc`, `Conc.step`, `Conc.run`).
-/

namespace OsKolok

/-! ## Data model -/

/-- Addresses of objects of the managed type `T`. -/
inductive Addr where
  /-- The object `EagerCreation<T>::instance` (lines 42, 48). -/
  | eagerStatic : Addr
  /-- The function-local `static T instance` of `NoThreadSafety<T>::getInstance` (line 55). -/
  | localStatic : Addr
  /-- The object produced by a `new T()` that obtained the `n`-th heap block. -/
  | heap (n : Nat) : Addr
  deriving DecidableEq, Repr

/-- How one run of `T::T()` ends; chosen by the environment for each call. -/
inductive CtorBehaviour where
  | completes : CtorBehaviour
  | throws : CtorBehaviour
  deriving DecidableEq, Repr

/-- The managed type `T`, as far as the templates can observe it: what its constructor and
its destructor write to `std::cout`. -/
structure ManagedType where
  ctorMsg : List String
  dtorMsg : List String
  deriving Repr

/-- The result of a call that yields a `T&` or a `T*`. -/
inductive Outcome where
  /-- The call returned a reference (pointer) to the object at `a`. -/
  | ref (a : Addr) : Outcome
  /-- An exception left the call. -/
  | threw : Outcome
  /-- The call waits for a mutex that is held and does not return. -/
  | blocked : Outcome
  /-- The call dereferenced a null pointer. -/
  | undefined : Outcome
  deriving DecidableEq, Repr

/-- The result of a call that yields a `T*`. -/
inductive PtrResult where
  /-- The call returned the pointer `p` (`none` is `nullptr`). -/
  | ptr (p : Option Addr) : PtrResult
  /-- An exception left the call. -/
  | threw : PtrResult
  deriving DecidableEq, Repr

/-- Accesses of `MutexThreadSafety<T>::getInstance` to the shared variables; an access to
`instance` records whether the mutex was held at that moment. -/
inductive Event where
  | lock : Event
  | unlock : Event
  | check (held : Bool) : Event
  | assign (held : Bool) : Event
  | read (held : Bool) : Event
  deriving DecidableEq, Repr

/-- The variables with static storage duration of the class templates. -/
structure Statics where
  /-- The pointer `LazyCreation<T>::instance` (lines 27, 36); `none` is `nullptr`. -/
  lazyInstance : Option Addr
  /-- Whether the object `EagerCreation<T>::instance` (lines 42, 48) exists. -/
  eagerInstance : Bool
  /-- Whether the local `static T instance` of line 55 has been initialized. -/
  localStatic : Bool
  /-- The mutex `MutexThreadSafety<T>::mutex` (lines 64, 77): is it held? -/
  mutexLocked : Bool
  /-- The pointer `MutexThreadSafety<T>::instance` (lines 65, 79). -/
  mutexInstance : Option Addr
  /-- The flag `CallOnceThreadSafety<T>::onceFlag` (lines 85, 95): has a returning
  execution of `std::call_once` taken place? -/
  onceFlag : Bool
  /-- The pointer `CallOnceThreadSafety<T>::instance` (lines 86, 97). -/
  onceInstance : Option Addr
  deriving DecidableEq, Repr

/-- What constructors, destructors and the allocator act on. -/
structure World where
  /-- The strings written to `std::cout`, in order. -/
  out : List String
  /-- How many runs of `T::T()` have begun. -/
  ctorStarted : Nat
  /-- How many runs of `T::T()` have returned normally. -/
  ctorCompleted : Nat
  /-- The objects of type `T` that are constructed and not destroyed. -/
  live : List Addr
  /-- The number of the next heap block. -/
  heapNext : Nat
  deriving DecidableEq, Repr

/-- The state of the process. -/
structure Process where
  statics : Statics
  world : World
  /-- The log of accesses to the mutex-guarded variables. -/
  trace : List Event
  deriving DecidableEq, Repr

/-- The creation policies (lines 23-48). -/
inductive CreationPolicy where
  | LazyCreation : CreationPolicy
  | EagerCreation : CreationPolicy
  deriving DecidableEq, Repr

/-- The thread-safety policies (lines 50-97). -/
inductive ThreadSafetyPolicy where
  | NoThreadSafety : ThreadSafetyPolicy
  | MutexThreadSafety : ThreadSafetyPolicy
  | CallOnceThreadSafety : ThreadSafetyPolicy
  deriving DecidableEq, Repr

/-! ## Construction -/

/-- One run of `T::T()` for the object at `a`. A run that completes writes the constructor's
message and makes the object live; a run that throws leaves no object. The flag tells
whether the run completed. -/
def construct (T : ManagedType) (c : CtorBehaviour) (a : Addr) (w : World) : Bool × World :=
  match c with
  | .completes =>
    (true, { w with out := w.out ++ T.ctorMsg
                    ctorStarted := w.ctorStarted + 1
                    ctorCompleted := w.ctorCompleted + 1
                    live := a :: w.live })
  | .throws => (false, { w with ctorStarted := w.ctorStarted + 1 })

/-- The expression `new T()`: take the next heap block and run the constructor in it. When
the constructor throws the block is given back and the exception propagates (`none`). -/
def newT (T : ManagedType) (c : CtorBehaviour) (w : World) : Option Addr × World :=
  match construct T c (.heap w.heapNext) w with
  | (true, w1) => (some (.heap w.heapNext), { w1 with heapNext := w.heapNext + 1 })
  | (false, w1) => (none, w1)

/-- The expression `*p`: a reference to the object `p` points to. -/
def deref (p : Option Addr) : Outcome :=
  match p with
  | some a => .ref a
  | none => .undefined

/-! ## Creation strategies -/

/-- The function `LazyCreation<T>::createInstance` (lines 28-33): the value of `instance`
after the conditional assignment. -/
def LazyCreation.createInstance (T : ManagedType) (c : CtorBehaviour) (s : Process) :
    PtrResult × Process :=
  match s.statics.lazyInstance with
  | none =>
    match newT T c s.world with
    | (some a, w) =>
      let s1 : Process := { s with statics := { s.statics with lazyInstance := some a }
                                   world := w }
      (.ptr s1.statics.lazyInstance, s1)
    | (none, w) => (.threw, { s with world := w })
  | some _ => (.ptr s.statics.lazyInstance, s)

/-- The function `EagerCreation<T>::createInstance` (lines 43-45): the address of the static
object. -/
def EagerCreation.createInstance (s : Process) : PtrResult × Process :=
  (.ptr (some .eagerStatic), s)

/-! ## Synchronization strategies -/

/-- The function `NoThreadSafety<T>::getInstance` (lines 54-57). The local static is
initialized by the first call that reaches its declaration; when the constructor throws,
the object counts as not initialized and the next call tries again. -/
def NoThreadSafety.getInstance (T : ManagedType) (c : CtorBehaviour) (s : Process) :
    Outcome × Process :=
  if s.statics.localStatic then (.ref .localStatic, s)
  else
    match construct T c .localStatic s.world with
    | (true, w) =>
      (.ref .localStatic, { s with statics := { s.statics with localStatic := true }
                                   world := w })
    | (false, w) => (.threw, { s with world := w })

/-- Appends an access to the log. -/
def Process.log (s : Process) (e : Event) : Process :=
  { s with trace := s.trace ++ [e] }

/-- The constructor of `std::lock_guard` on `MutexThreadSafety<T>::mutex` (line 69), for a
mutex that is free. -/
def MutexThreadSafety.lock (s : Process) : Process :=
  ({ s with statics := { s.statics with mutexLocked := true } } : Process).log .lock

/-- The destructor of the `std::lock_guard` of line 69, run when the scope is left by
`return` or by an exception. -/
def MutexThreadSafety.unlock (s : Process) : Process :=
  ({ s with statics := { s.statics with mutexLocked := false } } : Process).log .unlock

/-- The function `MutexThreadSafety<T>::getInstance` (lines 68-74). A call that finds the
mutex held waits (`blocked`). -/
def MutexThreadSafety.getInstance (T : ManagedType) (c : CtorBehaviour) (s : Process) :
    Outcome × Process :=
  if s.statics.mutexLocked then (.blocked, s)
  else
    let s1 := MutexThreadSafety.lock s
    let s2 := s1.log (.check s1.statics.mutexLocked)
    match s2.statics.mutexInstance with
    | none =>
      match newT T c s2.world with
      | (some a, w) =>
        let s3 : Process :=
          ({ s2 with statics := { s2.statics with mutexInstance := some a }
                     world := w } : Process).log (.assign s2.statics.mutexLocked)
        let s4 := s3.log (.read s3.statics.mutexLocked)
        (deref s4.statics.mutexInstance, MutexThreadSafety.unlock s4)
      | (none, w) => (.threw, MutexThreadSafety.unlock { s2 with world := w })
    | some _ =>
      let s4 := s2.log (.read s2.statics.mutexLocked)
      (deref s4.statics.mutexInstance, MutexThreadSafety.unlock s4)

/-- The call `std::call_once(onceFlag, f)` of the C++ standard library, which `src/` uses
and does not define. After a returning execution the flag is set and later calls return without
calling `f`. Otherwise `f` is called: when it returns the flag is set, when it throws the
exception propagates and the flag stays unset, so that a later call runs `f` again.
`Except.ok` is a normal return, `Except.error` an exception; both carry the state. -/
def call_once (f : Process → Except Process Process) (s : Process) : Except Process Process :=
  if s.statics.onceFlag then .ok s
  else
    match f s with
    | .ok s1 => .ok { s1 with statics := { s1.statics with onceFlag := true } }
    | .error s1 => .error s1

/-- The lambda `[]() { instance = new T(); }` of line 90. -/
def CallOnceThreadSafety.init (T : ManagedType) (c : CtorBehaviour) (s : Process) :
    Except Process Process :=
  match newT T c s.world with
  | (some a, w) => .ok { s with statics := { s.statics with onceInstance := some a }
                                world := w }
  | (none, w) => .error { s with world := w }

/-- The function `CallOnceThreadSafety<T>::getInstance` (lines 89-92). -/
def CallOnceThreadSafety.getInstance (T : ManagedType) (c : CtorBehaviour) (s : Process) :
    Outcome × Process :=
  match call_once (CallOnceThreadSafety.init T c) s with
  | .ok s1 => (deref s1.statics.onceInstance, s1)
  | .error s1 => (.threw, s1)

/-! ## The accessor -/

/-- The call `ThreadSafetyPolicy<T>::getInstance()` for the chosen policy. -/
def ThreadSafetyPolicy.getInstance (S : ThreadSafetyPolicy) (T : ManagedType)
    (c : CtorBehaviour) (s : Process) : Outcome × Process :=
  match S with
  | .NoThreadSafety => NoThreadSafety.getInstance T c s
  | .MutexThreadSafety => MutexThreadSafety.getInstance T c s
  | .CallOnceThreadSafety => CallOnceThreadSafety.getInstance T c s

/-- The accessor `Singleton<T, CreationPolicy, ThreadSafetyPolicy>::getInstance`
(lines 10-12): `return ThreadSafetyPolicy<T>::getInstance();`. The body does not mention
`CreationPolicy`. -/
def Singleton.getInstance (T : ManagedType) (_C : CreationPolicy) (S : ThreadSafetyPolicy)
    (c : CtorBehaviour) (s : Process) : Outcome × Process :=
  S.getInstance T c s

/-- Sequential calls of `Singleton<T, C, S>::getInstance`, one for each entry of `cs`; the
results in order, and the final state. -/
def callSeq (T : ManagedType) (C : CreationPolicy) (S : ThreadSafetyPolicy) :
    List CtorBehaviour → Process → List Outcome × Process
  | [], s => ([], s)
  | c :: cs, s =>
    let r := Singleton.getInstance T C S c s
    let rs := callSeq T C S cs r.2
    (r.1 :: rs.1, rs.2)

/-- Sequential calls of `LazyCreation<T>::createInstance`. -/
def LazyCreation.callSeq (T : ManagedType) : List CtorBehaviour → Process →
    List PtrResult × Process
  | [], s => ([], s)
  | c :: cs, s =>
    let r := LazyCreation.createInstance T c s
    let rs := LazyCreation.callSeq T cs r.2
    (r.1 :: rs.1, rs.2)

/-! ## Program start and exit -/

/-- The classes of `src/singleton.cpp` whose members contain code. -/
inductive ClassName where
  | Singleton (C : CreationPolicy) (S : ThreadSafetyPolicy) : ClassName
  | LazyCreation : ClassName
  | EagerCreation : ClassName
  | NoThreadSafety : ClassName
  | MutexThreadSafety : ClassName
  | CallOnceThreadSafety : ClassName
  deriving DecidableEq, Repr

/-- The member functions of the class templates. -/
inductive Member where
  | Singleton_getInstance (C : CreationPolicy) (S : ThreadSafetyPolicy) : Member
  | LazyCreation_createInstance : Member
  | EagerCreation_createInstance : Member
  | NoThreadSafety_getInstance : Member
  | MutexThreadSafety_getInstance : Member
  | CallOnceThreadSafety_getInstance : Member
  deriving DecidableEq, Repr

/-- The class a member function belongs to. -/
def Member.cls : Member → ClassName
  | .Singleton_getInstance C S => .Singleton C S
  | .LazyCreation_createInstance => .LazyCreation
  | .EagerCreation_createInstance => .EagerCreation
  | .NoThreadSafety_getInstance => .NoThreadSafety
  | .MutexThreadSafety_getInstance => .MutexThreadSafety
  | .CallOnceThreadSafety_getInstance => .CallOnceThreadSafety

/-- The `getInstance` of a thread-safety policy. -/
def ThreadSafetyPolicy.member : ThreadSafetyPolicy → Member
  | .NoThreadSafety => .NoThreadSafety_getInstance
  | .MutexThreadSafety => .MutexThreadSafety_getInstance
  | .CallOnceThreadSafety => .CallOnceThreadSafety_getInstance

/-- The member functions that the body of a member function calls. The only call of one
member function by another is line 11. -/
def Member.calls : Member → List Member
  | .Singleton_getInstance _ S => [S.member]
  | _ => []

/-- The member functions instantiated because `m` is used, following calls to depth `n`. -/
def Member.instantiates : Nat → Member → List Member
  | 0, m => [m]
  | n + 1, m => m :: (m.calls.flatMap (Member.instantiates n))

/-- Whether the body of a member function names `EagerCreation<T>::instance` (line 44
only). A static data member of a class template is instantiated, and so constructed during
static initialization, only when it is named by instantiated code. -/
def Member.usesEagerInstance : Member → Bool
  | .EagerCreation_createInstance => true
  | _ => false

/-- Whether the body of a member function constructs a `T` (lines 30, 55, 71, 90) or names
the static `T` of line 48. -/
def Member.constructsT : Member → Bool
  | .Singleton_getInstance _ _ => false
  | _ => true

/-- The state in which every variable with static storage duration has its constant
initializer (lines 36, 79, 97: `nullptr`; lines 77, 95: a free mutex, an unset flag) and no
constructor of `T` has run. -/
def Process.initial : Process :=
  { statics := { lazyInstance := none, eagerInstance := false, localStatic := false,
                 mutexLocked := false, mutexInstance := none,
                 onceFlag := false, onceInstance := none }
    world := { out := [], ctorStarted := 0, ctorCompleted := 0, live := [], heapNext := 0 }
    trace := [] }

/-- The state in which `main` is entered, for a program whose code uses the member
functions `uses`: dynamic initialization constructs `EagerCreation<T>::instance` when that
static member is instantiated. -/
def programStart (T : ManagedType) (uses : List Member) : Process :=
  if (uses.flatMap (Member.instantiates 2)).any Member.usesEagerInstance then
    { Process.initial with
      statics := { Process.initial.statics with eagerInstance := true }
      world := (construct T .completes .eagerStatic Process.initial.world).2 }
  else Process.initial

/-- The state in which `main` is entered for a program that uses `Singleton<T, C, S>`. -/
def Singleton.programStart (T : ManagedType) (C : CreationPolicy) (S : ThreadSafetyPolicy) :
    Process :=
  OsKolok.programStart T [.Singleton_getInstance C S]

/-- One run of `T::~T()` for the object at `a`. -/
def destroy (T : ManagedType) (a : Addr) (w : World) : World :=
  { w with out := w.out ++ T.dtorMsg, live := w.live.erase a }

/-- Termination of the process after `main` returns: the objects of type `T` with static
storage duration that were constructed are destroyed, the later constructed first. Heap
objects are not destroyed: the source has no `delete`. -/
def atExit (T : ManagedType) (s : Process) : Process :=
  let w1 := if s.statics.localStatic then destroy T .localStatic s.world else s.world
  let w2 := if s.statics.eagerInstance then destroy T .eagerStatic w1 else w1
  { s with world := w2 }

/-! ## The example class and `main` -/

/-- The class `MySingleton` (lines 100-111): the messages of its constructor and destructor. -/
def MySingleton : ManagedType :=
  { ctorMsg := ["MySingleton created\n"], dtorMsg := ["MySingleton destroyed\n"] }

/-- The function `MySingleton::sayHello` (lines 108-110). -/
def MySingleton.sayHello (_this : Addr) (s : Process) : Process :=
  { s with world := { s.world with out := s.world.out ++ ["Hello from MySingleton!\n"] } }

/-- The function `MySingleton::getInstance`, inherited from
`Singleton<MySingleton, LazyCreation, MutexThreadSafety>` (line 100). Allocation and the
constructor of line 104 do not throw. -/
def MySingleton.getInstance (s : Process) : Outcome × Process :=
  Singleton.getInstance MySingleton .LazyCreation .MutexThreadSafety .completes s

/-- What a run of `main` leaves behind. -/
structure MainRun where
  instance1 : Addr
  instance2 : Addr
  exitCode : Int
  final : Process
  deriving DecidableEq, Repr

/-- The body of `main` (lines 113-123); `none` when a call of `getInstance` does not return
a reference. -/
def main (s : Process) : Option MainRun :=
  match MySingleton.getInstance s with
  | (.ref instance1, s1) =>
    let s2 := MySingleton.sayHello instance1 s1
    match MySingleton.getInstance s2 with
    | (.ref instance2, s3) =>
      let s4 := MySingleton.sayHello instance2 s3
      some { instance1 := instance1, instance2 := instance2, exitCode := 0, final := s4 }
    | _ => none
  | _ => none

/-- Access to the constructor of a managed class: whether it is public, and the classes
named in `friend` declarations. -/
structure ClassAccess where
  ctorPublic : Bool
  friends : List ClassName
  deriving Repr

/-- The class `MySingleton` declares its constructor `private` (lines 103-104) and one friend
(line 101). -/
def MySingleton.access : ClassAccess :=
  { ctorPublic := false, friends := [.Singleton .LazyCreation .MutexThreadSafety] }

/-- Whether member function `m` may be instantiated for a managed class with access `A`: a
member that constructs a `T` needs access to the constructor of `T`. -/
def ClassAccess.permits (A : ClassAccess) (m : Member) : Bool :=
  !m.constructsT || A.ctorPublic || A.friends.contains m.cls

/-- The first instantiated member function that has no access to the constructor. -/
def ClassAccess.violation (A : ClassAccess) (uses : List Member) : Option Member :=
  (uses.flatMap (Member.instantiates 2)).find? (fun m => !A.permits m)

/-- What becomes of a program. -/
inductive ProgramResult where
  /-- The translation unit is ill-formed: `m` has no access to the constructor. -/
  | illFormed (m : Member) : ProgramResult
  /-- An exception left `main`. -/
  | terminated : ProgramResult
  /-- The process exited with `code` after writing `out`. -/
  | exited (code : Int) (out : List String) : ProgramResult
  deriving DecidableEq, Repr

/-- The run of `main` and the exit of the process, access checks aside. -/
def MySingleton.run : ProgramResult :=
  match main (Singleton.programStart MySingleton .LazyCreation .MutexThreadSafety) with
  | some r => .exited r.exitCode (atExit MySingleton r.final).world.out
  | none => .terminated

/-- The example program of `src/singleton.cpp`: translated, then run. -/
def MySingleton.program : ProgramResult :=
  match MySingleton.access.violation [.Singleton_getInstance .LazyCreation .MutexThreadSafety] with
  | some m => .illFormed m
  | none => MySingleton.run

/-! ## Observations on the state of a synchronization strategy -/

/-- The stored instance pointer of a synchronization strategy; for the local static of
`NoThreadSafety` the address of the object once it is initialized. -/
def ThreadSafetyPolicy.handle (S : ThreadSafetyPolicy) (s : Process) : Option Addr :=
  match S with
  | .NoThreadSafety => if s.statics.localStatic then some .localStatic else none
  | .MutexThreadSafety => s.statics.mutexInstance
  | .CallOnceThreadSafety => s.statics.onceInstance

/-- Whether the strategy is initialized: the local static is initialized, the instance
pointer is non-null, the once-flag is set. -/
def ThreadSafetyPolicy.initialized (S : ThreadSafetyPolicy) (s : Process) : Bool :=
  match S with
  | .NoThreadSafety => s.statics.localStatic
  | .MutexThreadSafety => s.statics.mutexInstance.isSome
  | .CallOnceThreadSafety => s.statics.onceFlag

/-- The states a process that uses `Singleton<T, C, S>` is in between calls of
`getInstance`, whatever the constructor does in each call. -/
inductive Reachable (T : ManagedType) (C : CreationPolicy) (S : ThreadSafetyPolicy) :
    Process → Prop where
  | start : Reachable T C S (Singleton.programStart T C S)
  | call (c : CtorBehaviour) {s : Process} :
      Reachable T C S s → Reachable T C S (Singleton.getInstance T C S c s).2

/-- What holds between calls: the mutex is free, the once-flag is set exactly when the
pointer it guards is, and the live objects are the stored instance and nothing else. -/
structure Inv (S : ThreadSafetyPolicy) (s : Process) : Prop where
  unlocked : s.statics.mutexLocked = false
  once : s.statics.onceFlag = s.statics.onceInstance.isSome
  live : s.world.live = (S.handle s).toList
  completed : s.world.ctorCompleted = (S.handle s).toList.length
  init : S.initialized s = (S.handle s).isSome

/-! ## Concurrent calls

Threads that call `getInstance` at the same time are interleaved statement by statement:
a state holds the shared process state and, for each thread, the place it has reached in
the body of `getInstance`. Both guarded strategies touch the shared variables only under
their guard, so an interleaving of whole statements loses no behaviour. -/

/-- The two strategies that guard the construction. -/
inductive GuardedPolicy where
  | MutexThreadSafety : GuardedPolicy
  | CallOnceThreadSafety : GuardedPolicy
  deriving DecidableEq, Repr

/-- The thread-safety policy a guarded strategy is. -/
def GuardedPolicy.toPolicy : GuardedPolicy → ThreadSafetyPolicy
  | .MutexThreadSafety => .MutexThreadSafety
  | .CallOnceThreadSafety => .CallOnceThreadSafety

/-- The place a thread has reached in the body of `getInstance`. -/
inductive Pc where
  /-- Before line 69 (the `lock_guard`), before line 90 (`std::call_once`). -/
  | entry : Pc
  /-- Line 70: about to evaluate `!instance`. -/
  | check : Pc
  /-- Lines 71, 90: about to evaluate `new T()`. -/
  | create : Pc
  /-- Lines 71, 90: about to store the new object's address in `instance`. -/
  | assign (a : Addr) : Pc
  /-- Line 90: the callable has returned, `std::call_once` is about to set the flag. -/
  | finish : Pc
  /-- Lines 73, 91: about to evaluate `*instance`. -/
  | result : Pc
  /-- Line 74: leaving the scope of the `lock_guard` with outcome `o`. -/
  | release (o : Outcome) : Pc
  /-- The call has ended with outcome `o`. -/
  | done (o : Outcome) : Pc
  deriving DecidableEq, Repr

/-- Whether the call has ended. -/
def Pc.isDone : Pc → Bool
  | .done _ => true
  | _ => false

/-- The state of a process in which `threads` threads call `getInstance`. -/
structure Conc where
  shared : Process
  /-- Whether an execution of `std::call_once` on `onceFlag` is calling its callable. -/
  onceActive : Bool
  threads : Nat
  pc : Nat → Pc

/-- Thread `t` goes to `pc`, leaving the shared state `p`. -/
def Conc.move (s : Conc) (t : Nat) (pc : Pc) (p : Process) : Conc :=
  { s with shared := p, pc := Function.update s.pc t pc }

/-- One statement of `MutexThreadSafety<T>::getInstance` (lines 68-74) by thread `t`;
`none` when the thread cannot move: it waits for the mutex, or its call has ended. -/
def MutexThreadSafety.step (T : ManagedType) (c : CtorBehaviour) (t : Nat) (s : Conc) :
    Option Conc :=
  match s.pc t with
  | .entry =>
    if s.shared.statics.mutexLocked then none
    else some (s.move t .check (MutexThreadSafety.lock s.shared))
  | .check =>
    let p := s.shared.log (.check s.shared.statics.mutexLocked)
    match p.statics.mutexInstance with
    | none => some (s.move t .create p)
    | some _ => some (s.move t .result p)
  | .create =>
    match newT T c s.shared.world with
    | (some a, w) => some (s.move t (.assign a) { s.shared with world := w })
    | (none, w) => some (s.move t (.release .threw) { s.shared with world := w })
  | .assign a =>
    some (s.move t .result
      (({ s.shared with statics := { s.shared.statics with mutexInstance := some a } } :
        Process).log (.assign s.shared.statics.mutexLocked)))
  | .result =>
    let p := s.shared.log (.read s.shared.statics.mutexLocked)
    some (s.move t (.release (deref p.statics.mutexInstance)) p)
  | .release o => some (s.move t (.done o) (MutexThreadSafety.unlock s.shared))
  | .finish => none
  | .done _ => none

/-- One statement of `CallOnceThreadSafety<T>::getInstance` (lines 89-92) by thread `t`.
`std::call_once` returns at once when the flag is set, waits while another execution is
calling the callable, and otherwise calls it; when the callable returns the flag is set,
when it throws the exception leaves `getInstance` and the flag stays unset. -/
def CallOnceThreadSafety.step (T : ManagedType) (c : CtorBehaviour) (t : Nat) (s : Conc) :
    Option Conc :=
  match s.pc t with
  | .entry =>
    if s.shared.statics.onceFlag then some (s.move t .result s.shared)
    else if s.onceActive then none
    else some { s.move t .create s.shared with onceActive := true }
  | .create =>
    match newT T c s.shared.world with
    | (some a, w) => some (s.move t (.assign a) { s.shared with world := w })
    | (none, w) =>
      some { s.move t (.done .threw) { s.shared with world := w } with onceActive := false }
  | .assign a =>
    some (s.move t .finish
      { s.shared with statics := { s.shared.statics with onceInstance := some a } })
  | .finish =>
    some { s.move t .result
            { s.shared with statics := { s.shared.statics with onceFlag := true } } with
           onceActive := false }
  | .result => some (s.move t (.done (deref s.shared.statics.onceInstance)) s.shared)
  | .check => none
  | .release _ => none
  | .done _ => none

/-- One statement by thread `t` of the strategy `G`; threads are numbered from `0` to
`threads - 1`. -/
def Conc.step (G : GuardedPolicy) (T : ManagedType) (c : CtorBehaviour) (t : Nat)
    (s : Conc) : Option Conc :=
  if t < s.threads then
    match G with
    | .MutexThreadSafety => MutexThreadSafety.step T c t s
    | .CallOnceThreadSafety => CallOnceThreadSafety.step T c t s
  else none

/-- An interleaving: the scheduler picks the threads of `sched` in turn, each with the
behaviour of the constructor in case it runs one; a thread that cannot move is passed
over. -/
def Conc.run (G : GuardedPolicy) (T : ManagedType) :
    List (Nat × CtorBehaviour) → Conc → Conc
  | [], s => s
  | x :: xs, s => Conc.run G T xs ((Conc.step G T x.2 x.1 s).getD s)

/-- The schedule that picks the threads of `sched` and lets every constructor complete. -/
def completing (sched : List Nat) : List (Nat × CtorBehaviour) :=
  sched.map fun t => (t, CtorBehaviour.completes)

/-- The state in which `n` threads are about to call
`Singleton<T, LazyCreation, G>::getInstance` for the first time. -/
def Conc.start (T : ManagedType) (G : GuardedPolicy) (n : Nat) : Conc :=
  { shared := Singleton.programStart T .LazyCreation G.toPolicy
    onceActive := false
    threads := n
    pc := fun _ => .entry }

/-- Whether a thread at this place holds the guard: the mutex, from taking it to
releasing it; the active execution of `std::call_once`, while the callable runs and until
the flag is set. -/
def GuardedPolicy.inCS (G : GuardedPolicy) : Pc → Bool :=
  match G with
  | .MutexThreadSafety => fun
    | .check | .create | .assign _ | .result | .release _ => true
    | _ => false
  | .CallOnceThreadSafety => fun
    | .create | .assign _ | .finish => true
    | _ => false

/-- Whether the guard is held. -/
def GuardedPolicy.held (G : GuardedPolicy) (s : Conc) : Bool :=
  match G with
  | .MutexThreadSafety => s.shared.statics.mutexLocked
  | .CallOnceThreadSafety => s.onceActive

/-- The statements a thread at this place has still to execute, at most. -/
def Pc.remaining : Pc → Nat
  | .entry => 7
  | .check => 6
  | .create => 5
  | .assign _ => 4
  | .finish => 3
  | .result => 2
  | .release _ => 1
  | .done _ => 0

/-- The statements the first `n` threads have still to execute, at most. -/
def Conc.remaining (pc : Nat → Pc) : Nat → Nat
  | 0 => 0
  | n + 1 => Conc.remaining pc n + (pc n).remaining

/-- An outcome a call can end with: an exception, or a reference to the stored instance. -/
def Returned (G : GuardedPolicy) (s : Conc) (o : Outcome) : Prop :=
  o = .threw ∨ ∃ a, o = .ref a ∧ G.toPolicy.handle s.shared = some a

/-- What a thread at a given place can rely on. -/
def GuardedPolicy.ok (G : GuardedPolicy) (s : Conc) (pc : Pc) : Prop :=
  match G, pc with
  | _, .entry => True
  | .MutexThreadSafety, .check => s.shared.statics.mutexLocked = true
  | .MutexThreadSafety, .create =>
    s.shared.statics.mutexLocked = true ∧ s.shared.statics.mutexInstance = none
  | .MutexThreadSafety, .assign a =>
    s.shared.statics.mutexLocked = true ∧ s.shared.statics.mutexInstance = none ∧
      s.shared.world.live = [a] ∧ s.shared.world.ctorCompleted = 1
  | .MutexThreadSafety, .result =>
    s.shared.statics.mutexLocked = true ∧ s.shared.statics.mutexInstance.isSome = true
  | .MutexThreadSafety, .release o =>
    s.shared.statics.mutexLocked = true ∧ Returned .MutexThreadSafety s o
  | .MutexThreadSafety, .finish => False
  | .CallOnceThreadSafety, .create =>
    s.onceActive = true ∧ s.shared.statics.onceFlag = false ∧
      s.shared.statics.onceInstance = none
  | .CallOnceThreadSafety, .assign a =>
    s.onceActive = true ∧ s.shared.statics.onceFlag = false ∧
      s.shared.statics.onceInstance = none ∧
      s.shared.world.live = [a] ∧ s.shared.world.ctorCompleted = 1
  | .CallOnceThreadSafety, .finish =>
    s.onceActive = true ∧ s.shared.statics.onceFlag = false ∧
      s.shared.statics.onceInstance.isSome = true
  | .CallOnceThreadSafety, .result =>
    s.shared.statics.onceFlag = true ∧ s.shared.statics.onceInstance.isSome = true
  | .CallOnceThreadSafety, .check => False
  | .CallOnceThreadSafety, .release _ => False
  | G, .done o => Returned G s o

/-- The invariant of the interleavings. -/
structure CInv (G : GuardedPolicy) (s : Conc) : Prop where
  ok : ∀ t, t < s.threads → G.ok s (s.pc t)
  unique : ∀ t u, t < s.threads → u < s.threads →
    G.inCS (s.pc t) = true → G.inCS (s.pc u) = true → t = u
  holder : G.held s = true → ∃ t, t < s.threads ∧ G.inCS (s.pc t) = true
  settled : (∃ t a, t < s.threads ∧ s.pc t = .assign a) ∨
    (s.shared.world.live = (G.toPolicy.handle s.shared).toList ∧
      s.shared.world.ctorCompleted = (G.toPolicy.handle s.shared).toList.length)
  flag : G = .CallOnceThreadSafety → s.shared.statics.onceFlag = true →
    s.shared.statics.onceInstance.isSome = true ∧ s.onceActive = false
  unset : G = .CallOnceThreadSafety → s.shared.statics.onceFlag = false →
    s.onceActive = false → s.shared.statics.onceInstance = none

/-- What holds in addition while no constructor throws: every constructor run begun has
completed, and no call has ended or is about to end with an exception. -/
structure NoThrow (s : Conc) : Prop where
  counts : s.shared.world.ctorStarted = s.shared.world.ctorCompleted
  outcomes : ∀ t, t < s.threads → s.pc t ≠ .release .threw ∧ s.pc t ≠ .done .threw

/-! ## Lemmas: one call -/

theorem programStart_eq (T : ManagedType) (C : CreationPolicy) (S : ThreadSafetyPolicy) :
    Singleton.programStart T C S = Process.initial := by
  cases S <;> rfl

theorem inv_initial (S : ThreadSafetyPolicy) : Inv S Process.initial := by
  cases S <;> constructor <;> rfl

/-- A call on an initialized strategy returns the stored instance and constructs nothing. -/
theorem getInstance_initialized (T : ManagedType) (C : CreationPolicy)
    (S : ThreadSafetyPolicy) (c : CtorBehaviour) (s : Process) (hI : Inv S s)
    (hi : S.initialized s = true) :
    ∃ a, S.handle s = some a ∧ (Singleton.getInstance T C S c s).1 = .ref a ∧
      (Singleton.getInstance T C S c s).2.statics = s.statics ∧
      (Singleton.getInstance T C S c s).2.world = s.world := by
  obtain ⟨hu, ho, -, -, -⟩ := hI
  obtain ⟨⟨l, e, ls, ml, mi, fl, oi⟩, w, tr⟩ := s
  simp only at hu ho
  subst hu
  cases S with
  | NoThreadSafety =>
    simp only [ThreadSafetyPolicy.initialized] at hi
    subst hi
    exact ⟨.localStatic, rfl, rfl, rfl, rfl⟩
  | MutexThreadSafety =>
    simp only [ThreadSafetyPolicy.initialized, Option.isSome_iff_exists] at hi
    obtain ⟨a, ha⟩ := hi
    subst ha
    exact ⟨a, rfl, rfl, rfl, rfl⟩
  | CallOnceThreadSafety =>
    simp only [ThreadSafetyPolicy.initialized] at hi
    subst hi
    obtain ⟨a, ha⟩ := Option.isSome_iff_exists.mp ho.symm
    subst ha
    exact ⟨a, rfl, rfl, rfl, rfl⟩

/-- On a strategy that is not initialized a call whose constructor throws propagates the
exception and changes nothing but the count of constructor runs begun. -/
theorem getInstance_throws (T : ManagedType) (C : CreationPolicy)
    (S : ThreadSafetyPolicy) (s : Process) (hI : Inv S s) (hi : S.initialized s = false) :
    (Singleton.getInstance T C S .throws s).1 = .threw ∧
      (Singleton.getInstance T C S .throws s).2.statics = s.statics ∧
      (Singleton.getInstance T C S .throws s).2.world =
        { s.world with ctorStarted := s.world.ctorStarted + 1 } := by
  obtain ⟨hu, ho, -, -, -⟩ := hI
  obtain ⟨⟨l, e, ls, ml, mi, fl, oi⟩, w, tr⟩ := s
  simp only at hu ho
  subst hu
  cases S with
  | NoThreadSafety =>
    simp only [ThreadSafetyPolicy.initialized] at hi
    subst hi
    exact ⟨rfl, rfl, rfl⟩
  | MutexThreadSafety =>
    cases mi with
    | none => exact ⟨rfl, rfl, rfl⟩
    | some a => simp [ThreadSafetyPolicy.initialized] at hi
  | CallOnceThreadSafety =>
    simp only [ThreadSafetyPolicy.initialized] at hi
    subst hi
    exact ⟨rfl, rfl, rfl⟩

/-- On a strategy that is not initialized a call whose constructor completes constructs
one object, stores it and returns it. -/
theorem getInstance_completes (T : ManagedType) (C : CreationPolicy)
    (S : ThreadSafetyPolicy) (s : Process) (hI : Inv S s) (hi : S.initialized s = false) :
    ∃ a, (Singleton.getInstance T C S .completes s).1 = .ref a ∧
      S.handle (Singleton.getInstance T C S .completes s).2 = some a ∧
      S.initialized (Singleton.getInstance T C S .completes s).2 = true ∧
      Inv S (Singleton.getInstance T C S .completes s).2 ∧
      (Singleton.getInstance T C S .completes s).2.world.ctorStarted =
        s.world.ctorStarted + 1 ∧
      (Singleton.getInstance T C S .completes s).2.world.out = s.world.out ++ T.ctorMsg := by
  obtain ⟨hu, ho, hl, hc, hin⟩ := hI
  rw [hi] at hin
  have hh : S.handle ⟨s.statics, s.world, s.trace⟩ = none := by
    cases h : S.handle s with
    | none => rfl
    | some a => rw [h] at hin; simp at hin
  obtain ⟨⟨l, e, ls, ml, mi, fl, oi⟩, ⟨out, st, cc, lv, hn⟩, tr⟩ := s
  simp only at hu ho hh
  rw [hh] at hl hc
  simp only [Option.toList, List.length_nil] at hl hc
  subst hu hl hc
  cases S with
  | NoThreadSafety =>
    simp only [ThreadSafetyPolicy.initialized] at hi
    subst hi
    exact ⟨.localStatic, rfl, rfl, rfl, ⟨rfl, ho, rfl, rfl, rfl⟩, rfl, rfl⟩
  | MutexThreadSafety =>
    simp only [ThreadSafetyPolicy.handle] at hh
    subst hh
    exact ⟨.heap hn, rfl, rfl, rfl, ⟨rfl, ho, rfl, rfl, rfl⟩, rfl, rfl⟩
  | CallOnceThreadSafety =>
    simp only [ThreadSafetyPolicy.handle] at hh
    subst hh
    simp only [ThreadSafetyPolicy.initialized] at hi
    subst hi
    exact ⟨.heap hn, rfl, rfl, rfl, ⟨rfl, rfl, rfl, rfl, rfl⟩, rfl, rfl⟩

/-- Every call keeps the invariant. -/
theorem inv_getInstance (T : ManagedType) (C : CreationPolicy) (S : ThreadSafetyPolicy)
    (c : CtorBehaviour) (s : Process) (hI : Inv S s) :
    Inv S (Singleton.getInstance T C S c s).2 := by
  cases hi : S.initialized s with
  | true =>
    obtain ⟨a, -, -, hs, hw⟩ := getInstance_initialized T C S c s hI hi
    have hh : S.handle (Singleton.getInstance T C S c s).2 = S.handle s := by
      cases S <;> simp only [ThreadSafetyPolicy.handle, hs]
    have hin : S.initialized (Singleton.getInstance T C S c s).2 = S.initialized s := by
      cases S <;> simp only [ThreadSafetyPolicy.initialized, hs]
    exact ⟨by rw [hs]; exact hI.unlocked, by rw [hs]; exact hI.once,
      by rw [hw, hh]; exact hI.live, by rw [hw, hh]; exact hI.completed,
      by rw [hin, hh]; exact hI.init⟩
  | false =>
    cases c with
    | completes =>
      obtain ⟨a, -, -, -, h, -⟩ := getInstance_completes T C S s hI hi
      exact h
    | throws =>
      obtain ⟨-, hs, hw⟩ := getInstance_throws T C S s hI hi
      have hh : S.handle (Singleton.getInstance T C S .throws s).2 = S.handle s := by
        cases S <;> simp only [ThreadSafetyPolicy.handle, hs]
      have hin : S.initialized (Singleton.getInstance T C S .throws s).2
          = S.initialized s := by
        cases S <;> simp only [ThreadSafetyPolicy.initialized, hs]
      exact ⟨by rw [hs]; exact hI.unlocked, by rw [hs]; exact hI.once,
        by rw [hw, hh]; exact hI.live, by rw [hw, hh]; exact hI.completed,
        by rw [hin, hh]; exact hI.init⟩

theorem inv_reachable (T : ManagedType) (C : CreationPolicy) (S : ThreadSafetyPolicy)
    (s : Process) (h : Reachable T C S s) : Inv S s := by
  induction h with
  | start => rw [programStart_eq]; exact inv_initial S
  | call c _ ih => exact inv_getInstance T C S c _ ih

/-! ## Lemmas: sequences of calls -/

theorem handle_congr (S : ThreadSafetyPolicy) {s1 s2 : Process}
    (h : s1.statics = s2.statics) : S.handle s1 = S.handle s2 := by
  cases S <;> simp only [ThreadSafetyPolicy.handle, h]

theorem initialized_congr (S : ThreadSafetyPolicy) {s1 s2 : Process}
    (h : s1.statics = s2.statics) : S.initialized s1 = S.initialized s2 := by
  cases S <;> simp only [ThreadSafetyPolicy.initialized, h]

/-- Once the strategy is initialized every call of a sequence returns the stored instance,
and the sequence constructs nothing. -/
theorem callSeq_initialized (T : ManagedType) (C : CreationPolicy) (S : ThreadSafetyPolicy)
    (cs : List CtorBehaviour) (s : Process) (hI : Inv S s) (hi : S.initialized s = true) :
    ∃ a, S.handle s = some a ∧
      (callSeq T C S cs s).1 = List.replicate cs.length (.ref a) ∧
      (callSeq T C S cs s).2.statics = s.statics ∧
      (callSeq T C S cs s).2.world = s.world := by
  induction cs generalizing s with
  | nil =>
    obtain ⟨a, ha, -⟩ := getInstance_initialized T C S .completes s hI hi
    exact ⟨a, ha, rfl, rfl, rfl⟩
  | cons c cs ih =>
    obtain ⟨a, ha, ho, hs, hw⟩ := getInstance_initialized T C S c s hI hi
    have hI1 := inv_getInstance T C S c s hI
    have hi1 : S.initialized (Singleton.getInstance T C S c s).2 = true := by
      rw [initialized_congr S hs]; exact hi
    obtain ⟨b, hb, hro, hrs, hrw⟩ := ih _ hI1 hi1
    have hab : b = a := by
      rw [handle_congr S hs, ha] at hb
      exact (Option.some.inj hb).symm
    subst hab
    refine ⟨b, ha, ?_, ?_, ?_⟩
    · simp only [callSeq, ho, hro, List.length_cons, List.replicate_succ]
    · simp only [callSeq, hrs, hs]
    · simp only [callSeq, hrw, hw]

/-- The results of a prefix of a sequence are a prefix of the results. -/
theorem callSeq_take (T : ManagedType) (C : CreationPolicy) (S : ThreadSafetyPolicy)
    (cs : List CtorBehaviour) (k : Nat) (s : Process) :
    (callSeq T C S (cs.take k) s).1 = (callSeq T C S cs s).1.take k := by
  induction cs generalizing s k with
  | nil => simp [callSeq]
  | cons c cs ih =>
    cases k with
    | zero => simp [callSeq]
    | succ k => simp only [List.take_succ_cons, callSeq, ih]

/-- A non-empty sequence of calls that all return, begun on a strategy that is not
initialized: the first call constructs the instance, every call returns it, and the
constructor runs once. -/
theorem callSeq_uninitialized (T : ManagedType) (C : CreationPolicy)
    (S : ThreadSafetyPolicy) (cs : List CtorBehaviour) (s : Process) (hI : Inv S s)
    (hi : S.initialized s = false) (hne : cs ≠ [])
    (hs : ∀ o ∈ (callSeq T C S cs s).1, ∃ a, o = Outcome.ref a) :
    ∃ a, (callSeq T C S cs s).1 = List.replicate cs.length (.ref a) ∧
      S.handle (callSeq T C S cs s).2 = some a ∧
      (callSeq T C S cs s).2.world.ctorStarted = s.world.ctorStarted + 1 ∧
      (callSeq T C S cs s).2.world.ctorCompleted = 1 := by
  cases cs with
  | nil => exact absurd rfl hne
  | cons c cs =>
    cases c with
    | throws =>
      obtain ⟨h, -⟩ := getInstance_throws T C S s hI hi
      obtain ⟨a, ha⟩ := hs (Singleton.getInstance T C S .throws s).1
        (by simp [callSeq])
      rw [h] at ha
      exact Outcome.noConfusion ha
    | completes =>
      obtain ⟨a, ho, hh, hi1, hI1, hst, -⟩ := getInstance_completes T C S s hI hi
      obtain ⟨b, hb, hro, hrs, hrw⟩ := callSeq_initialized T C S cs _ hI1 hi1
      have hab : b = a := by
        rw [hh] at hb
        exact (Option.some.inj hb).symm
      subst hab
      refine ⟨b, ?_, ?_, ?_, ?_⟩
      · simp only [callSeq, ho, hro, List.length_cons, List.replicate_succ]
      · simp only [callSeq]
        rw [handle_congr S hrs]; exact hh
      · simp only [callSeq, hrw, hst]
      · simp only [callSeq, hrw]
        rw [hI1.completed, hh]; rfl

/-! ## The claims: sequential use -/

/-- C1: for each of the three synchronization strategies, when every call of a sequence
of sequential calls of `getInstance` begun at program start returns, all calls return a
reference to one and the same object: the result of call `i` equals the result of call
`j` for all `i`, `j`. -/
theorem getInstance_same_object (T : ManagedType) (C : CreationPolicy)
    (S : ThreadSafetyPolicy) (cs : List CtorBehaviour)
    (hs : ∀ o ∈ (callSeq T C S cs (Singleton.programStart T C S)).1,
      ∃ a, o = Outcome.ref a) :
    (∃ a, (callSeq T C S cs (Singleton.programStart T C S)).1
        = List.replicate cs.length (.ref a)) ∧
    ∀ (i j : Nat) (hi : i < (callSeq T C S cs (Singleton.programStart T C S)).1.length)
      (hj : j < (callSeq T C S cs (Singleton.programStart T C S)).1.length),
      (callSeq T C S cs (Singleton.programStart T C S)).1[i]
        = (callSeq T C S cs (Singleton.programStart T C S)).1[j] := by
  have key : ∃ a, (callSeq T C S cs (Singleton.programStart T C S)).1
      = List.replicate cs.length (.ref a) := by
    by_cases hne : cs = []
    · subst hne
      exact ⟨.localStatic, rfl⟩
    · rw [programStart_eq] at hs ⊢
      have hu : S.initialized Process.initial = false := by cases S <;> rfl
      obtain ⟨a, ha, -⟩ :=
        callSeq_uninitialized T C S cs _ (inv_initial S) hu hne hs
      exact ⟨a, ha⟩
  refine ⟨key, ?_⟩
  obtain ⟨a, ha⟩ := key
  intro i j hi hj
  have hall : ∀ o ∈ (callSeq T C S cs (Singleton.programStart T C S)).1,
      o = Outcome.ref a := by
    intro o ho
    rw [ha] at ho
    exact List.eq_of_mem_replicate ho
  rw [hall _ (List.getElem_mem hi), hall _ (List.getElem_mem hj)]

/-- Three calls of `getInstance` on `Singleton<MySingleton, LazyCreation, NoThreadSafety>`
return the same object. -/
theorem getInstance_same_object_witness :
    (∀ o ∈ (callSeq MySingleton .LazyCreation .NoThreadSafety
        [.completes, .completes, .completes]
        (Singleton.programStart MySingleton .LazyCreation .NoThreadSafety)).1,
      ∃ a, o = Outcome.ref a) ∧
    (callSeq MySingleton .LazyCreation .NoThreadSafety [.completes, .completes, .completes]
        (Singleton.programStart MySingleton .LazyCreation .NoThreadSafety)).1
      = [.ref .localStatic, .ref .localStatic, .ref .localStatic] ∧
    ∃ a, (callSeq MySingleton .LazyCreation .NoThreadSafety
        [.completes, .completes, .completes]
        (Singleton.programStart MySingleton .LazyCreation .NoThreadSafety)).1
      = List.replicate 3 (.ref a) :=
  have h : ∀ o ∈ (callSeq MySingleton .LazyCreation .NoThreadSafety
        [.completes, .completes, .completes]
        (Singleton.programStart MySingleton .LazyCreation .NoThreadSafety)).1,
      ∃ a, o = Outcome.ref a := by
    intro o ho
    have : o ∈ [Outcome.ref .localStatic, .ref .localStatic, .ref .localStatic] := ho
    simp only [List.mem_cons, List.mem_singleton, List.mem_nil_iff, or_false, or_self] at this
    exact ⟨.localStatic, this⟩
  ⟨h, rfl, (getInstance_same_object MySingleton .LazyCreation .NoThreadSafety
    [.completes, .completes, .completes] h).1⟩

/-- C2: in single-threaded use, for each of the three strategies and every `n ≥ 1`
calls of `getInstance` that return, after the first `k` calls (`1 ≤ k ≤ n`) the
constructor of the managed type has run exactly once: the first call runs it once, no
later call runs it again. -/
theorem constructor_runs_once (T : ManagedType) (C : CreationPolicy)
    (S : ThreadSafetyPolicy) (cs : List CtorBehaviour)
    (hs : ∀ o ∈ (callSeq T C S cs (Singleton.programStart T C S)).1,
      ∃ a, o = Outcome.ref a)
    (k : Nat) (hk : 1 ≤ k) (hkn : k ≤ cs.length) :
    (callSeq T C S (cs.take k) (Singleton.programStart T C S)).2.world.ctorStarted = 1 ∧
    (callSeq T C S (cs.take k) (Singleton.programStart T C S)).2.world.ctorCompleted = 1 := by
  rw [programStart_eq] at hs ⊢
  have hu : S.initialized Process.initial = false := by cases S <;> rfl
  have hne : cs.take k ≠ [] := by
    intro h
    have hl : (cs.take k).length = k := by simp [List.length_take, hkn]
    rw [h] at hl
    simp at hl
    omega
  have hs1 : ∀ o ∈ (callSeq T C S (cs.take k) Process.initial).1, ∃ a, o = Outcome.ref a := by
    intro o ho
    rw [callSeq_take] at ho
    exact hs o (List.mem_of_mem_take ho)
  obtain ⟨a, -, -, h1, h2⟩ :=
    callSeq_uninitialized T C S (cs.take k) _ (inv_initial S) hu hne hs1
  exact ⟨h1, h2⟩

/-- After three calls of `getInstance` on `Singleton<MySingleton, LazyCreation,
NoThreadSafety>` the constructor has run once. -/
theorem constructor_runs_once_witness :
    (callSeq MySingleton .LazyCreation .NoThreadSafety
        ([CtorBehaviour.completes, .completes, .completes].take 3)
        (Singleton.programStart MySingleton .LazyCreation .NoThreadSafety)).2.world.ctorStarted
      = 1 ∧
    (callSeq MySingleton .LazyCreation .NoThreadSafety
        ([CtorBehaviour.completes, .completes, .completes].take 3)
        (Singleton.programStart MySingleton .LazyCreation .NoThreadSafety)).2.world.ctorCompleted
      = 1 :=
  constructor_runs_once MySingleton .LazyCreation .NoThreadSafety
    [.completes, .completes, .completes]
    (by
      intro o ho
      have : o ∈ [Outcome.ref .localStatic, .ref .localStatic, .ref .localStatic] := ho
      simp only [List.mem_cons, List.mem_singleton, List.mem_nil_iff, or_false,
        or_self] at this
      exact ⟨.localStatic, this⟩)
    3 (by decide) (by decide)

/-- C3: in a reachable state in which the strategy is not initialized, a call of
`getInstance` whose constructor throws propagates the exception and leaves the static
state (instance pointers, mutex, once-flag) and the set of live objects as they were;
a following call whose constructor completes returns an instance, which is then the stored
and the only live one, the constructor having completed exactly once. This holds for
`MutexThreadSafety` and `CallOnceThreadSafety` (and for `NoThreadSafety`). -/
theorem ctor_failure_propagates (T : ManagedType) (C : CreationPolicy)
    (S : ThreadSafetyPolicy) (s : Process) (hr : Reachable T C S s)
    (hu : S.initialized s = false) :
    (Singleton.getInstance T C S .throws s).1 = .threw ∧
    (Singleton.getInstance T C S .throws s).2.statics = s.statics ∧
    (Singleton.getInstance T C S .throws s).2.world.live = s.world.live ∧
    (Singleton.getInstance T C S .throws s).2.world.ctorCompleted = 0 ∧
    ∃ a, (Singleton.getInstance T C S .completes
            (Singleton.getInstance T C S .throws s).2).1 = .ref a ∧
      S.handle (Singleton.getInstance T C S .completes
            (Singleton.getInstance T C S .throws s).2).2 = some a ∧
      S.initialized (Singleton.getInstance T C S .completes
            (Singleton.getInstance T C S .throws s).2).2 = true ∧
      (Singleton.getInstance T C S .completes
            (Singleton.getInstance T C S .throws s).2).2.world.live = [a] ∧
      (Singleton.getInstance T C S .completes
            (Singleton.getInstance T C S .throws s).2).2.world.ctorCompleted = 1 := by
  have hI := inv_reachable T C S s hr
  obtain ⟨h1, h2, h3⟩ := getInstance_throws T C S s hI hu
  have hI1 := inv_getInstance T C S .throws s hI
  have hu1 : S.initialized (Singleton.getInstance T C S .throws s).2 = false := by
    rw [initialized_congr S h2]; exact hu
  have hh : S.handle s = none := by
    have := hI.init
    rw [hu] at this
    cases h : S.handle s with
    | none => rfl
    | some a => rw [h] at this; simp at this
  obtain ⟨a, ha, hb, hc, hI2, -, -⟩ :=
    getInstance_completes T C S (Singleton.getInstance T C S .throws s).2 hI1 hu1
  refine ⟨h1, h2, by rw [h3], ?_, a, ha, hb, hc, ?_, ?_⟩
  · rw [h3]
    show s.world.ctorCompleted = 0
    rw [hI.completed, hh]; rfl
  · rw [hI2.live, hb]; rfl
  · rw [hI2.completed, hb]; rfl

/-- A throwing call at program start of `Singleton<MySingleton, LazyCreation,
CallOnceThreadSafety>`, followed by a completing one. -/
theorem ctor_failure_propagates_witness :
    Reachable MySingleton .LazyCreation .CallOnceThreadSafety
      (Singleton.programStart MySingleton .LazyCreation .CallOnceThreadSafety) ∧
    (Singleton.getInstance MySingleton .LazyCreation .CallOnceThreadSafety .throws
      (Singleton.programStart MySingleton .LazyCreation .CallOnceThreadSafety)).1 = .threw ∧
    ∃ a, (Singleton.getInstance MySingleton .LazyCreation .CallOnceThreadSafety .completes
      (Singleton.getInstance MySingleton .LazyCreation .CallOnceThreadSafety .throws
        (Singleton.programStart MySingleton .LazyCreation .CallOnceThreadSafety)).2).1
      = .ref a :=
  have h := ctor_failure_propagates MySingleton .LazyCreation .CallOnceThreadSafety
    (Singleton.programStart MySingleton .LazyCreation .CallOnceThreadSafety) .start rfl
  ⟨.start, h.1, h.2.2.2.2.imp fun _ ha => ha.1⟩

/-- C7: `LazyCreation<T>::createInstance`. From the initial state (stored handle null) the
first invocation constructs one `T` on the heap and stores its handle; with a handle stored,
an invocation returns it and leaves the whole state as it is; and of `n ≥ 1` sequential
invocations (the first constructor run completing) all results are that handle and the
constructor has run once. -/
theorem lazy_createInstance_once (T : ManagedType) :
    ((LazyCreation.createInstance T .completes Process.initial).1 = .ptr (some (.heap 0)) ∧
      (LazyCreation.createInstance T .completes Process.initial).2.statics.lazyInstance
        = some (.heap 0) ∧
      (LazyCreation.createInstance T .completes Process.initial).2.world.live = [.heap 0] ∧
      (LazyCreation.createInstance T .completes Process.initial).2.world.ctorCompleted = 1) ∧
    (∀ (c : CtorBehaviour) (st : Statics) (w : World) (tr : List Event) (a : Addr),
      LazyCreation.createInstance T c ⟨{ st with lazyInstance := some a }, w, tr⟩
        = (.ptr (some a), ⟨{ st with lazyInstance := some a }, w, tr⟩)) ∧
    (∀ cs : List CtorBehaviour,
      (LazyCreation.callSeq T (.completes :: cs) Process.initial).1
        = List.replicate (cs.length + 1) (.ptr (some (.heap 0))) ∧
      (LazyCreation.callSeq T (.completes :: cs) Process.initial).2.statics.lazyInstance
        = some (.heap 0) ∧
      (LazyCreation.callSeq T (.completes :: cs) Process.initial).2.world.ctorStarted = 1 ∧
      (LazyCreation.callSeq T (.completes :: cs) Process.initial).2.world.ctorCompleted = 1 ∧
      (LazyCreation.callSeq T (.completes :: cs) Process.initial).2.world.live
        = [.heap 0]) := by
  have stored : ∀ (c : CtorBehaviour) (st : Statics) (w : World) (tr : List Event) (a : Addr),
      LazyCreation.createInstance T c ⟨{ st with lazyInstance := some a }, w, tr⟩
        = (.ptr (some a), ⟨{ st with lazyInstance := some a }, w, tr⟩) :=
    fun _ _ _ _ _ => rfl
  have steady : ∀ (cs : List CtorBehaviour) (s : Process) (a : Addr),
      s.statics.lazyInstance = some a →
      LazyCreation.callSeq T cs s = (List.replicate cs.length (.ptr (some a)), s) := by
    intro cs
    induction cs with
    | nil => intro s a _; rfl
    | cons c cs ih =>
      intro s a ha
      have h1 : LazyCreation.createInstance T c s = (.ptr (some a), s) := by
        obtain ⟨⟨l, e, ls, ml, mi, fl, oi⟩, w, tr⟩ := s
        simp only at ha
        subst ha
        rfl
      simp only [LazyCreation.callSeq, h1, ih s a ha, List.length_cons,
        List.replicate_succ]
  refine ⟨⟨rfl, rfl, rfl, rfl⟩, stored, fun cs => ?_⟩
  have h := steady cs (LazyCreation.createInstance T .completes Process.initial).2
    (.heap 0) rfl
  simp only [LazyCreation.callSeq, h, List.replicate_succ]
  exact ⟨rfl, rfl, rfl, rfl, rfl⟩

/-- C8: in every state reachable by calls of `getInstance` (returning or throwing) at most
one managed object has been constructed and is live, and it is the stored instance; once
the strategy is initialized, every call and every sequence of calls leaves it initialized
with the same instance pointer, so that no step leads back to the uninitialized state. -/
theorem at_most_one_instance (T : ManagedType) (C : CreationPolicy)
    (S : ThreadSafetyPolicy) (s : Process) (hr : Reachable T C S s) :
    s.world.ctorCompleted ≤ 1 ∧ s.world.live.length ≤ 1 ∧
    s.world.live = (S.handle s).toList ∧
    s.world.ctorCompleted = s.world.live.length ∧
    (S.initialized s = true →
      (∀ c, S.initialized (Singleton.getInstance T C S c s).2 = true ∧
        S.handle (Singleton.getInstance T C S c s).2 = S.handle s) ∧
      (∀ cs, S.initialized (callSeq T C S cs s).2 = true ∧
        S.handle (callSeq T C S cs s).2 = S.handle s)) := by
  have hI := inv_reachable T C S s hr
  have hlen : (S.handle s).toList.length ≤ 1 := by
    cases S.handle s <;> simp [Option.toList]
  refine ⟨by rw [hI.completed]; exact hlen, by rw [hI.live]; exact hlen, hI.live,
    by rw [hI.completed, hI.live], fun hi => ⟨fun c => ?_, fun cs => ?_⟩⟩
  · obtain ⟨a, -, -, hs, -⟩ := getInstance_initialized T C S c s hI hi
    exact ⟨by rw [initialized_congr S hs]; exact hi, handle_congr S hs⟩
  · obtain ⟨a, -, -, hs, -⟩ := callSeq_initialized T C S cs s hI hi
    exact ⟨by rw [initialized_congr S hs]; exact hi, handle_congr S hs⟩

/-- The state after one completing call on `Singleton<MySingleton, LazyCreation,
MutexThreadSafety>` is reachable, holds one live object, and stays initialized. -/
theorem at_most_one_instance_witness :
    Reachable MySingleton .LazyCreation .MutexThreadSafety
      (Singleton.getInstance MySingleton .LazyCreation .MutexThreadSafety .completes
        (Singleton.programStart MySingleton .LazyCreation .MutexThreadSafety)).2 ∧
    (Singleton.getInstance MySingleton .LazyCreation .MutexThreadSafety .completes
        (Singleton.programStart MySingleton .LazyCreation .MutexThreadSafety)).2.world.live.length
      ≤ 1 ∧
    ThreadSafetyPolicy.MutexThreadSafety.initialized
      (Singleton.getInstance MySingleton .LazyCreation .MutexThreadSafety .throws
        (Singleton.getInstance MySingleton .LazyCreation .MutexThreadSafety .completes
          (Singleton.programStart MySingleton .LazyCreation .MutexThreadSafety)).2).2 = true :=
  have h := at_most_one_instance MySingleton .LazyCreation .MutexThreadSafety
    (Singleton.getInstance MySingleton .LazyCreation .MutexThreadSafety .completes
      (Singleton.programStart MySingleton .LazyCreation .MutexThreadSafety)).2
    (.call .completes .start)
  ⟨.call .completes .start, h.2.1, ((h.2.2.2.2 rfl).1 .throws).1⟩

/-- C9: a call of `MutexThreadSafety<T>::getInstance` begun with the mutex free ends with
the mutex free, both when it returns the instance and when construction throws (which
happens exactly when the instance pointer was null and the constructor throws). What the
call does to the shared variables lies between taking and releasing the mutex: the check
of `instance`, the assignment and the read for the result all find the mutex held, the
check always takes place and the assignment takes place when a constructor run
completed. -/
theorem mutex_released_on_every_path (T : ManagedType) (c : CtorBehaviour) (s : Process)
    (hu : s.statics.mutexLocked = false) :
    (MutexThreadSafety.getInstance T c s).2.statics.mutexLocked = false ∧
    ((MutexThreadSafety.getInstance T c s).1 = .threw ↔
      (s.statics.mutexInstance = none ∧ c = .throws)) ∧
    ((MutexThreadSafety.getInstance T c s).1 = .threw ∨
      ∃ a, (MutexThreadSafety.getInstance T c s).1 = .ref a ∧
        (MutexThreadSafety.getInstance T c s).2.statics.mutexInstance = some a) ∧
    ∃ es : List Event,
      (MutexThreadSafety.getInstance T c s).2.trace
        = s.trace ++ Event.lock :: (es ++ [Event.unlock]) ∧
      Event.check true ∈ es ∧
      (∀ e ∈ es, e = Event.check true ∨ e = Event.assign true ∨ e = Event.read true) ∧
      (Event.assign true ∈ es ↔ (s.statics.mutexInstance = none ∧ c = .completes)) := by
  obtain ⟨⟨l, e, ls, ml, mi, fl, oi⟩, w, tr⟩ := s
  simp only at hu
  subst hu
  cases mi with
  | some a =>
    refine ⟨rfl, ?_, Or.inr ⟨a, rfl, rfl⟩, [.check true, .read true], ?_, ?_, ?_, ?_⟩
    · simp [MutexThreadSafety.getInstance, MutexThreadSafety.lock,
        MutexThreadSafety.unlock, Process.log, deref]
    · cases c <;> simp [MutexThreadSafety.getInstance, MutexThreadSafety.lock,
        MutexThreadSafety.unlock, Process.log, deref]
    · simp
    · intro e he
      simp only [List.mem_cons, List.mem_singleton, List.mem_nil_iff, or_false] at he
      rcases he with h | h <;> simp [h]
    · simp
  | none =>
    cases c with
    | completes =>
      refine ⟨rfl, ?_, Or.inr ⟨.heap w.heapNext, rfl, rfl⟩,
        [.check true, .assign true, .read true], ?_, ?_, ?_, ?_⟩
      · simp [MutexThreadSafety.getInstance, MutexThreadSafety.lock,
          MutexThreadSafety.unlock, Process.log, deref, newT, construct]
      · simp [MutexThreadSafety.getInstance, MutexThreadSafety.lock,
          MutexThreadSafety.unlock, Process.log, deref, newT, construct]
      · simp
      · intro e he
        simp only [List.mem_cons, List.mem_singleton, List.mem_nil_iff, or_false] at he
        rcases he with h | h | h <;> simp [h]
      · simp
    | throws =>
      refine ⟨rfl, ?_, Or.inl rfl, [.check true], ?_, ?_, ?_, ?_⟩
      · simp [MutexThreadSafety.getInstance, MutexThreadSafety.lock,
          MutexThreadSafety.unlock, Process.log, deref, newT, construct]
      · simp [MutexThreadSafety.getInstance, MutexThreadSafety.lock,
          MutexThreadSafety.unlock, Process.log, deref, newT, construct]
      · simp
      · intro e he
        simp only [List.mem_singleton] at he
        simp [he]
      · simp

/-- A call at program start whose constructor throws releases the mutex. -/
theorem mutex_released_on_every_path_witness :
    Process.initial.statics.mutexLocked = false ∧
    (MutexThreadSafety.getInstance MySingleton .throws Process.initial).1 = .threw ∧
    (MutexThreadSafety.getInstance MySingleton .throws Process.initial).2.statics.mutexLocked
      = false :=
  ⟨rfl, rfl, (mutex_released_on_every_path MySingleton .throws Process.initial rfl).1⟩

/-- C5 (the code at `Singleton<T, EagerCreation, S>`): the accessor never refers to the
creation policy, so `EagerCreation<T>::instance` is not instantiated and at the first call
of `getInstance` no constructor has run; the first call itself constructs the object, which
is not the static object of `EagerCreation<T>`, and the call does what it does with
`LazyCreation`. In a program that does use `EagerCreation<T>::createInstance` the
constructor has run once when `main` is entered and the function returns the address of
the static object. -/
theorem eager_policy_has_no_effect (T : ManagedType) (S : ThreadSafetyPolicy) :
    (Singleton.programStart T .EagerCreation S).statics.eagerInstance = false ∧
    (Singleton.programStart T .EagerCreation S).world.ctorStarted = 0 ∧
    (Singleton.programStart T .EagerCreation S).world.ctorCompleted = 0 ∧
    (Singleton.getInstance T .EagerCreation S .completes
      (Singleton.programStart T .EagerCreation S)).2.world.ctorCompleted = 1 ∧
    (Singleton.getInstance T .EagerCreation S .completes
      (Singleton.programStart T .EagerCreation S)).1 ≠ .ref .eagerStatic ∧
    (Singleton.getInstance T .EagerCreation S .completes
      (Singleton.programStart T .EagerCreation S)).1
      = (Singleton.getInstance T .LazyCreation S .completes
          (Singleton.programStart T .LazyCreation S)).1 ∧
    (programStart T [.EagerCreation_createInstance]).world.ctorCompleted = 1 ∧
    (EagerCreation.createInstance (programStart T [.EagerCreation_createInstance])).1
      = .ptr (some .eagerStatic) := by
  have hne : ∀ a : Addr, a ≠ .eagerStatic → Outcome.ref a ≠ .ref .eagerStatic :=
    fun a ha h => ha (Outcome.ref.inj h)
  cases S
  · exact ⟨rfl, rfl, rfl, rfl, hne .localStatic (by decide), rfl, rfl, rfl⟩
  · exact ⟨rfl, rfl, rfl, rfl, hne (.heap 0) (by decide), rfl, rfl, rfl⟩
  · exact ⟨rfl, rfl, rfl, rfl, hne (.heap 0) (by decide), rfl, rfl, rfl⟩

/-- C6 (the code at `Singleton<T, LazyCreation, MutexThreadSafety>`): the accessor forwards
to the synchronization strategy, but no call of `getInstance`, for any pair of policies,
changes `LazyCreation<T>::instance`; after the first call it is still null, and the object
returned is the one `MutexThreadSafety<T>` allocated and stored in its own pointer. -/
theorem creation_policy_not_invoked (T : ManagedType) :
    (∀ C c s, Singleton.getInstance T C .MutexThreadSafety c s
      = MutexThreadSafety.getInstance T c s) ∧
    (∀ C S c s, (Singleton.getInstance T C S c s).2.statics.lazyInstance
      = s.statics.lazyInstance) ∧
    (Singleton.getInstance T .LazyCreation .MutexThreadSafety .completes
      (Singleton.programStart T .LazyCreation .MutexThreadSafety)).1 = .ref (.heap 0) ∧
    (Singleton.getInstance T .LazyCreation .MutexThreadSafety .completes
      (Singleton.programStart T .LazyCreation .MutexThreadSafety)).2.statics.lazyInstance
      = none ∧
    (Singleton.getInstance T .LazyCreation .MutexThreadSafety .completes
      (Singleton.programStart T .LazyCreation .MutexThreadSafety)).2.statics.mutexInstance
      = some (.heap 0) := by
  refine ⟨fun _ _ _ => rfl, ?_, rfl, rfl, rfl⟩
  intro C S c s
  obtain ⟨⟨l, e, ls, ml, mi, fl, oi⟩, w, tr⟩ := s
  cases S <;> cases c <;> cases ls <;> cases ml <;> cases mi <;> cases fl <;> rfl

/-- C10 (the code of the example program): `new T()` of line 71 stands in
`MutexThreadSafety<MySingleton>`, which is not a friend of `MySingleton` (line 101 names
the `Singleton` base only) while the constructor is private (lines 103-104), so the
translation unit is ill-formed and no run exists. With the access check left aside, the
run writes the three lines of the claim in order, both calls return the same object, and
the destructor's message is not written. -/
theorem example_program_ill_formed :
    MySingleton.program = .illFormed .MutexThreadSafety_getInstance ∧
    MySingleton.access.permits .MutexThreadSafety_getInstance = false ∧
    MySingleton.run = .exited 0
      ["MySingleton created\n", "Hello from MySingleton!\n", "Hello from MySingleton!\n"] ∧
    (main (Singleton.programStart MySingleton .LazyCreation .MutexThreadSafety)).map
      (fun r => (r.instance1, r.instance2)) = some (.heap 0, .heap 0) := by
  refine ⟨?_, ?_, ?_, ?_⟩ <;> decide

/-! ## Lemmas: interleavings -/

theorem held_of_ok (G : GuardedPolicy) (s : Conc) (pc : Pc) (hcs : G.inCS pc = true)
    (hok : G.ok s pc) : G.held s = true := by
  cases G <;> cases pc <;>
    simp_all [GuardedPolicy.ok, GuardedPolicy.inCS, GuardedPolicy.held]

/-- What a thread outside the guarded region relies on survives every change that keeps a
stored instance and a set flag. -/
theorem ok_of_idle (G : GuardedPolicy) (s s1 : Conc) (pc : Pc) (hcs : G.inCS pc = false)
    (hok : G.ok s pc)
    (hh : ∀ a, G.toPolicy.handle s.shared = some a → G.toPolicy.handle s1.shared = some a)
    (hf : s.shared.statics.onceFlag = true → s1.shared.statics.onceFlag = true) :
    G.ok s1 pc := by
  cases G <;> cases pc <;>
    simp_all [GuardedPolicy.ok, GuardedPolicy.inCS, Returned, GuardedPolicy.toPolicy,
      ThreadSafetyPolicy.handle, Option.isSome_iff_exists]
  all_goals first
    | (rcases hok with h | ⟨a, h1, h2⟩
       · exact Or.inl h
       · exact Or.inr ⟨a, h1, hh a h2⟩)
    | (obtain ⟨-, a, ha⟩ := hok
       exact ⟨a, hh a ha⟩)

/-- The invariant after a move of thread `t`, when no other thread is in the guarded
region. -/
theorem cinv_move (G : GuardedPolicy) (s : Conc) (t : Nat) (pc : Pc) (p : Process)
    (act : Bool) (h : CInv G s) (ht : t < s.threads)
    (hidle : ∀ u, u < s.threads → u ≠ t → G.inCS (s.pc u) = false)
    (hh : ∀ a, G.toPolicy.handle s.shared = some a → G.toPolicy.handle p = some a)
    (hf : s.shared.statics.onceFlag = true → p.statics.onceFlag = true)
    (hok : G.ok { s.move t pc p with onceActive := act } pc)
    (hheld : G.held { s.move t pc p with onceActive := act } = G.inCS pc)
    (hsettled : (∃ a, pc = .assign a) ∨
      (p.world.live = (G.toPolicy.handle p).toList ∧
        p.world.ctorCompleted = (G.toPolicy.handle p).toList.length))
    (hflag : G = .CallOnceThreadSafety → p.statics.onceFlag = true →
      p.statics.onceInstance.isSome = true ∧ act = false)
    (hunset : G = .CallOnceThreadSafety → p.statics.onceFlag = false → act = false →
      p.statics.onceInstance = none) :
    CInv G { s.move t pc p with onceActive := act } := by
  have hpc_self : ({ s.move t pc p with onceActive := act } : Conc).pc t = pc := by
    simp [Conc.move]
  have hpc_ne : ∀ u, u ≠ t →
      ({ s.move t pc p with onceActive := act } : Conc).pc u = s.pc u := by
    intro u hu
    simp [Conc.move, Function.update_noteq hu]
  have hcs : ∀ u, u < s.threads →
      G.inCS (({ s.move t pc p with onceActive := act } : Conc).pc u) = true → u = t := by
    intro u hu hc
    by_contra hne
    rw [hpc_ne u hne, hidle u hu hne] at hc
    exact Bool.false_ne_true hc
  refine ⟨?_, ?_, ?_, ?_, hflag, hunset⟩
  · intro u hu
    by_cases hut : u = t
    · subst hut; rw [hpc_self]; exact hok
    · rw [hpc_ne u hut]
      exact ok_of_idle G s _ _ (hidle u hu hut) (h.ok u hu) hh hf
  · intro u v hu hv hcu hcv
    rw [hcs u hu hcu, hcs v hv hcv]
  · intro hhd
    rw [hheld] at hhd
    exact ⟨t, ht, by rw [hpc_self]; exact hhd⟩
  · rcases hsettled with ⟨a, ha⟩ | hs
    · exact Or.inl ⟨t, a, ht, by rw [hpc_self]; exact ha⟩
    · exact Or.inr hs

/-- While the guard is free no thread is in the guarded region. -/
theorem idle_of_free (G : GuardedPolicy) (s : Conc) (h : CInv G s)
    (hfree : G.held s = false) (u : Nat) (hu : u < s.threads) :
    G.inCS (s.pc u) = false := by
  cases hc : G.inCS (s.pc u) with
  | false => rfl
  | true =>
    have := held_of_ok G s _ hc (h.ok u hu)
    rw [hfree] at this
    exact absurd this Bool.false_ne_true

/-- While thread `t` is in the guarded region no other thread is. -/
theorem idle_of_holder (G : GuardedPolicy) (s : Conc) (h : CInv G s) (t : Nat)
    (ht : t < s.threads) (hcs : G.inCS (s.pc t) = true) (u : Nat) (hu : u < s.threads)
    (hne : u ≠ t) : G.inCS (s.pc u) = false := by
  cases hc : G.inCS (s.pc u) with
  | false => rfl
  | true => exact absurd (h.unique u t hu ht hc hcs) hne

/-- When no thread is about to store a new object, the only live object is the stored
one, if any. -/
theorem settled_of_idle (G : GuardedPolicy) (s : Conc) (h : CInv G s) (t : Nat)
    (hidle : ∀ u, u < s.threads → u ≠ t → G.inCS (s.pc u) = false)
    (hnot : ∀ a, s.pc t ≠ .assign a) :
    s.shared.world.live = (G.toPolicy.handle s.shared).toList ∧
      s.shared.world.ctorCompleted = (G.toPolicy.handle s.shared).toList.length := by
  rcases h.settled with ⟨u, a, hu, hua⟩ | hst
  · by_cases hut : u = t
    · subst hut; exact absurd hua (hnot a)
    · have := hidle u hu hut
      rw [hua] at this
      cases G <;> simp [GuardedPolicy.inCS] at this
  · exact hst

theorem cinv_step_mutex (T : ManagedType) (c : CtorBehaviour) (t : Nat) (s s1 : Conc)
    (h : CInv .MutexThreadSafety s) (ht : t < s.threads)
    (hs : MutexThreadSafety.step T c t s = some s1) : CInv .MutexThreadSafety s1 := by
  have hokt := h.ok t ht
  unfold MutexThreadSafety.step at hs
  cases hpc : s.pc t with
  | entry =>
    rw [hpc] at hs
    simp only at hs
    split at hs
    · exact absurd hs (by simp)
    · rename_i hfree
      injection hs with hs
      subst hs
      have hfree' : GuardedPolicy.held .MutexThreadSafety s = false := by
        simpa [GuardedPolicy.held] using hfree
      refine cinv_move .MutexThreadSafety s t .check (MutexThreadSafety.lock s.shared)
        s.onceActive h ht (fun u hu _ => idle_of_free _ s h hfree' u hu)
        (fun a ha => ha) (fun hf => hf) ?_ ?_ ?_ (by simp) (by simp)
      · simp [GuardedPolicy.ok, Conc.move, MutexThreadSafety.lock, Process.log]
      · simp [GuardedPolicy.held, GuardedPolicy.inCS, Conc.move, MutexThreadSafety.lock,
          Process.log]
      · exact Or.inr (settled_of_idle _ s h t
          (fun u hu _ => idle_of_free _ s h hfree' u hu)
          (by rw [hpc]; intro a ha; cases ha))
  | check =>
    rw [hpc] at hs hokt
    simp only at hs
    have hidle := idle_of_holder _ s h t ht (by rw [hpc]; rfl)
    have hset := settled_of_idle _ s h t hidle (by rw [hpc]; intro a ha; cases ha)
    simp only [GuardedPolicy.ok] at hokt
    cases hi : s.shared.statics.mutexInstance with
    | none =>
      simp only [Process.log, hi] at hs
      injection hs with hs
      subst hs
      refine cinv_move .MutexThreadSafety s t .create _ s.onceActive h ht hidle
        (fun a ha => ha) (fun hf => hf) ?_ ?_ (Or.inr hset) (by simp) (by simp)
      · simp [GuardedPolicy.ok, Conc.move, hokt, hi]
      · simp [GuardedPolicy.held, GuardedPolicy.inCS, Conc.move, hokt]
    | some a =>
      simp only [Process.log, hi] at hs
      injection hs with hs
      subst hs
      refine cinv_move .MutexThreadSafety s t .result _ s.onceActive h ht hidle
        (fun a ha => ha) (fun hf => hf) ?_ ?_ (Or.inr hset) (by simp) (by simp)
      · simp [GuardedPolicy.ok, Conc.move, hokt, hi]
      · simp [GuardedPolicy.held, GuardedPolicy.inCS, Conc.move, hokt]
  | create =>
    rw [hpc] at hs hokt
    simp only at hs
    have hidle := idle_of_holder _ s h t ht (by rw [hpc]; rfl)
    have hset := settled_of_idle _ s h t hidle (by rw [hpc]; intro a ha; cases ha)
    simp only [GuardedPolicy.ok] at hokt
    obtain ⟨hl, hi⟩ := hokt
    simp only [GuardedPolicy.toPolicy, ThreadSafetyPolicy.handle, hi, Option.toList,
      List.length_nil] at hset
    cases c with
    | completes =>
      simp only [newT, construct] at hs
      injection hs with hs
      subst hs
      refine cinv_move .MutexThreadSafety s t (.assign (.heap s.shared.world.heapNext)) _
        s.onceActive h ht hidle ?_ (fun hf => hf) ?_ ?_ (Or.inl ⟨_, rfl⟩) (by simp) (by simp)
      · intro a ha; exact ha
      · simp [GuardedPolicy.ok, Conc.move, hl, hi, hset]
      · simp [GuardedPolicy.held, GuardedPolicy.inCS, Conc.move, hl]
    | throws =>
      simp only [newT, construct] at hs
      injection hs with hs
      subst hs
      refine cinv_move .MutexThreadSafety s t (.release .threw) _
        s.onceActive h ht hidle ?_ (fun hf => hf) ?_ ?_ (Or.inr ?_) (by simp) (by simp)
      · intro a ha; exact ha
      · simp [GuardedPolicy.ok, Conc.move, hl, Returned]
      · simp [GuardedPolicy.held, GuardedPolicy.inCS, Conc.move, hl]
      · simp [GuardedPolicy.toPolicy, ThreadSafetyPolicy.handle, hi, hset]
  | assign a =>
    rw [hpc] at hs hokt
    simp only at hs
    have hidle := idle_of_holder _ s h t ht (by rw [hpc]; rfl)
    simp only [GuardedPolicy.ok] at hokt
    obtain ⟨hl, hi, hlv, hcc⟩ := hokt
    injection hs with hs
    subst hs
    refine cinv_move .MutexThreadSafety s t .result _
      s.onceActive h ht hidle ?_ (fun hf => hf) ?_ ?_ (Or.inr ?_) (by simp) (by simp)
    · intro b hb
      simp [GuardedPolicy.toPolicy, ThreadSafetyPolicy.handle, hi] at hb
    · simp [GuardedPolicy.ok, Conc.move, Process.log, hl]
    · simp [GuardedPolicy.held, GuardedPolicy.inCS, Conc.move, Process.log, hl]
    · simp [GuardedPolicy.toPolicy, ThreadSafetyPolicy.handle, Process.log, hlv, hcc]
  | result =>
    rw [hpc] at hs hokt
    simp only at hs
    have hidle := idle_of_holder _ s h t ht (by rw [hpc]; rfl)
    have hset := settled_of_idle _ s h t hidle (by rw [hpc]; intro a ha; cases ha)
    simp only [GuardedPolicy.ok] at hokt
    obtain ⟨hl, hi⟩ := hokt
    obtain ⟨a, ha⟩ := Option.isSome_iff_exists.mp hi
    injection hs with hs
    subst hs
    refine cinv_move .MutexThreadSafety s t _ _
      s.onceActive h ht hidle (fun a ha => ha) (fun hf => hf) ?_ ?_ (Or.inr hset)
      (by simp) (by simp)
    · simp [GuardedPolicy.ok, Conc.move, Process.log, hl, Returned, deref, ha,
        GuardedPolicy.toPolicy, ThreadSafetyPolicy.handle]
    · simp [GuardedPolicy.held, GuardedPolicy.inCS, Conc.move, Process.log, hl]
  | release o =>
    rw [hpc] at hs hokt
    simp only at hs
    have hidle := idle_of_holder _ s h t ht (by rw [hpc]; rfl)
    have hset := settled_of_idle _ s h t hidle (by rw [hpc]; intro a ha; cases ha)
    simp only [GuardedPolicy.ok] at hokt
    obtain ⟨hl, hr⟩ := hokt
    injection hs with hs
    subst hs
    refine cinv_move .MutexThreadSafety s t _ _
      s.onceActive h ht hidle (fun a ha => ha) (fun hf => hf) ?_ ?_ (Or.inr hset)
      (by simp) (by simp)
    · simpa [GuardedPolicy.ok, Conc.move, MutexThreadSafety.unlock, Process.log, Returned,
        GuardedPolicy.toPolicy, ThreadSafetyPolicy.handle] using hr
    · simp [GuardedPolicy.held, GuardedPolicy.inCS, Conc.move, MutexThreadSafety.unlock,
        Process.log]
  | finish =>
    rw [hpc] at hs
    exact absurd hs (by simp)
  | done o =>
    rw [hpc] at hs
    exact absurd hs (by simp)

theorem cinv_step_callOnce (T : ManagedType) (c : CtorBehaviour) (t : Nat) (s s1 : Conc)
    (h : CInv .CallOnceThreadSafety s) (ht : t < s.threads)
    (hs : CallOnceThreadSafety.step T c t s = some s1) : CInv .CallOnceThreadSafety s1 := by
  have hokt := h.ok t ht
  unfold CallOnceThreadSafety.step at hs
  cases hpc : s.pc t with
  | entry =>
    rw [hpc] at hs
    simp only at hs
    split at hs
    · rename_i hfl
      obtain ⟨hsome, hact⟩ := h.flag rfl hfl
      have hidle : ∀ u, u < s.threads → u ≠ t →
          GuardedPolicy.inCS .CallOnceThreadSafety (s.pc u) = false :=
        fun u hu _ => idle_of_free _ s h (by simpa [GuardedPolicy.held] using hact) u hu
      have hset := settled_of_idle _ s h t hidle (by rw [hpc]; intro a ha; cases ha)
      injection hs with hs
      subst hs
      refine cinv_move .CallOnceThreadSafety s t .result _ s.onceActive h ht hidle
        (fun a ha => ha) (fun hf => hf) ?_ ?_ (Or.inr hset) (fun _ hf => h.flag rfl hf)
        (fun _ hf => h.unset rfl hf)
      · simp [GuardedPolicy.ok, Conc.move, hfl, hsome]
      · simp [GuardedPolicy.held, GuardedPolicy.inCS, Conc.move, hact]
    · rename_i hfl
      split at hs
      · exact absurd hs (by simp)
      · rename_i hact
        have hfl' : s.shared.statics.onceFlag = false := by simpa using hfl
        have hact' : s.onceActive = false := by simpa using hact
        have hidle : ∀ u, u < s.threads → u ≠ t →
            GuardedPolicy.inCS .CallOnceThreadSafety (s.pc u) = false :=
          fun u hu _ => idle_of_free _ s h (by simpa [GuardedPolicy.held] using hact') u hu
        have hset := settled_of_idle _ s h t hidle (by rw [hpc]; intro a ha; cases ha)
        have hnone := h.unset rfl hfl' hact'
        injection hs with hs
        subst hs
        refine cinv_move .CallOnceThreadSafety s t .create _ true h ht hidle
          (fun a ha => ha) (fun hf => hf) ?_ ?_ (Or.inr hset) ?_ ?_
        · simp [GuardedPolicy.ok, Conc.move, hfl', hnone]
        · simp [GuardedPolicy.held, GuardedPolicy.inCS, Conc.move]
        · intro _ hf; rw [hfl'] at hf; cases hf
        · intro _ _ hf; cases hf
  | create =>
    rw [hpc] at hs hokt
    simp only at hs
    have hidle := idle_of_holder _ s h t ht (by rw [hpc]; rfl)
    have hset := settled_of_idle _ s h t hidle (by rw [hpc]; intro a ha; cases ha)
    simp only [GuardedPolicy.ok] at hokt
    obtain ⟨hact, hfl, hi⟩ := hokt
    simp only [GuardedPolicy.toPolicy, ThreadSafetyPolicy.handle, hi, Option.toList,
      List.length_nil] at hset
    cases c with
    | completes =>
      simp only [newT, construct] at hs
      injection hs with hs
      subst hs
      refine cinv_move .CallOnceThreadSafety s t (.assign (.heap s.shared.world.heapNext)) _
        s.onceActive h ht hidle (fun a ha => ha) (fun hf => hf) ?_ ?_ (Or.inl ⟨_, rfl⟩) ?_ ?_
      · simp [GuardedPolicy.ok, Conc.move, hact, hfl, hi, hset]
      · simp [GuardedPolicy.held, GuardedPolicy.inCS, Conc.move, hact]
      · intro _ hf
        simp [hfl] at hf
      · intro _ _ hf
        simp [hact] at hf
    | throws =>
      simp only [newT, construct] at hs
      injection hs with hs
      subst hs
      refine cinv_move .CallOnceThreadSafety s t (.done .threw) _
        false h ht hidle (fun a ha => ha) (fun hf => hf) ?_ ?_ (Or.inr ?_) ?_ ?_
      · simp [GuardedPolicy.ok, Returned]
      · simp [GuardedPolicy.held, GuardedPolicy.inCS, Conc.move]
      · simp [GuardedPolicy.toPolicy, ThreadSafetyPolicy.handle, hi, hset]
      · intro _ hf
        simp [hfl] at hf
      · intro _ _ _
        exact hi
  | assign a =>
    rw [hpc] at hs hokt
    simp only at hs
    have hidle := idle_of_holder _ s h t ht (by rw [hpc]; rfl)
    simp only [GuardedPolicy.ok] at hokt
    obtain ⟨hact, hfl, hi, hlv, hcc⟩ := hokt
    injection hs with hs
    subst hs
    refine cinv_move .CallOnceThreadSafety s t .finish _
      s.onceActive h ht hidle ?_ (fun hf => hf) ?_ ?_ (Or.inr ?_) ?_ ?_
    · intro b hb
      simp [GuardedPolicy.toPolicy, ThreadSafetyPolicy.handle, hi] at hb
    · simp [GuardedPolicy.ok, Conc.move, hact, hfl]
    · simp [GuardedPolicy.held, GuardedPolicy.inCS, Conc.move, hact]
    · simp [GuardedPolicy.toPolicy, ThreadSafetyPolicy.handle, hlv, hcc]
    · intro _ hf
      simp [hfl] at hf
    · intro _ _ hf
      simp [hact] at hf
  | finish =>
    rw [hpc] at hs hokt
    simp only at hs
    have hidle := idle_of_holder _ s h t ht (by rw [hpc]; rfl)
    have hset := settled_of_idle _ s h t hidle (by rw [hpc]; intro a ha; cases ha)
    simp only [GuardedPolicy.ok] at hokt
    obtain ⟨hact, hfl, hi⟩ := hokt
    injection hs with hs
    subst hs
    refine cinv_move .CallOnceThreadSafety s t .result _
      false h ht hidle (fun a ha => ha) (fun _ => rfl) ?_ ?_ (Or.inr hset) ?_ ?_
    · simp [GuardedPolicy.ok, Conc.move, hi]
    · simp [GuardedPolicy.held, GuardedPolicy.inCS, Conc.move]
    · intro _ _
      exact ⟨hi, rfl⟩
    · intro _ hf
      simp at hf
  | result =>
    rw [hpc] at hs hokt
    simp only at hs
    simp only [GuardedPolicy.ok] at hokt
    obtain ⟨hfl, hi⟩ := hokt
    obtain ⟨-, hact⟩ := h.flag rfl hfl
    have hidle : ∀ u, u < s.threads → u ≠ t →
        GuardedPolicy.inCS .CallOnceThreadSafety (s.pc u) = false :=
      fun u hu _ => idle_of_free _ s h (by simpa [GuardedPolicy.held] using hact) u hu
    have hset := settled_of_idle _ s h t hidle (by rw [hpc]; intro a ha; cases ha)
    obtain ⟨a, ha⟩ := Option.isSome_iff_exists.mp hi
    injection hs with hs
    subst hs
    refine cinv_move .CallOnceThreadSafety s t _ _ s.onceActive h ht hidle
      (fun a ha => ha) (fun hf => hf) ?_ ?_ (Or.inr hset) (fun _ hf => h.flag rfl hf)
      (fun _ hf => h.unset rfl hf)
    · simp [GuardedPolicy.ok, Conc.move, Returned, deref, ha, GuardedPolicy.toPolicy,
        ThreadSafetyPolicy.handle]
    · simp [GuardedPolicy.held, GuardedPolicy.inCS, Conc.move, hact]
  | check =>
    rw [hpc] at hs
    exact absurd hs (by simp)
  | release o =>
    rw [hpc] at hs
    exact absurd hs (by simp)
  | done o =>
    rw [hpc] at hs
    exact absurd hs (by simp)

/-- Every step keeps the invariant. -/
theorem cinv_step (G : GuardedPolicy) (T : ManagedType) (c : CtorBehaviour) (t : Nat)
    (s s1 : Conc) (h : CInv G s) (hs : Conc.step G T c t s = some s1) : CInv G s1 := by
  unfold Conc.step at hs
  split at hs
  · rename_i ht
    cases G with
    | MutexThreadSafety => exact cinv_step_mutex T c t s s1 h ht hs
    | CallOnceThreadSafety => exact cinv_step_callOnce T c t s s1 h ht hs
  · exact absurd hs (by simp)

theorem cinv_start (T : ManagedType) (G : GuardedPolicy) (n : Nat) :
    CInv G (Conc.start T G n) := by
  refine ⟨?_, ?_, ?_, Or.inr ?_, ?_, ?_⟩
  · intro t _
    cases G <;> simp [Conc.start, GuardedPolicy.ok]
  · intro t u _ _ ht
    cases G <;> simp [Conc.start, GuardedPolicy.inCS] at ht
  · intro hh
    cases G <;> simp [Conc.start, GuardedPolicy.held, programStart_eq, Process.initial] at hh
  · cases G <;> exact ⟨rfl, rfl⟩
  · intro _ hf
    cases G <;> simp [Conc.start, programStart_eq, Process.initial] at hf
  · intro _ _ _
    cases G <;> rfl

/-- Every interleaving keeps the invariant. -/
theorem cinv_run (G : GuardedPolicy) (T : ManagedType) (xs : List (Nat × CtorBehaviour))
    (s : Conc) (h : CInv G s) : CInv G (Conc.run G T xs s) := by
  induction xs generalizing s with
  | nil => exact h
  | cons x xs ih =>
    simp only [Conc.run]
    cases hst : Conc.step G T x.2 x.1 s with
    | none => exact ih s h
    | some s1 => exact ih s1 (cinv_step G T x.2 x.1 s s1 h hst)

theorem step_threads (G : GuardedPolicy) (T : ManagedType) (c : CtorBehaviour) (t : Nat)
    (s s1 : Conc) (hs : Conc.step G T c t s = some s1) :
    t < s.threads ∧ s1.threads = s.threads ∧
      ∃ v : Pc, s1.pc = Function.update s.pc t v ∧ v.remaining < (s.pc t).remaining := by
  unfold Conc.step at hs
  split at hs
  · rename_i ht
    refine ⟨ht, ?_⟩
    cases G with
    | MutexThreadSafety =>
      simp only [MutexThreadSafety.step] at hs
      cases hpc : s.pc t <;> rw [hpc] at hs <;> simp only at hs
      · split at hs
        · exact absurd hs (by simp)
        · injection hs with hs; subst hs
          exact ⟨rfl, _, rfl, by decide⟩
      · split at hs <;> (injection hs with hs; subst hs)
        · exact ⟨rfl, _, rfl, by decide⟩
        · exact ⟨rfl, _, rfl, by decide⟩
      · cases c <;> simp only [newT, construct] at hs <;> (injection hs with hs; subst hs)
        · exact ⟨rfl, _, rfl, by simp [Pc.remaining]⟩
        · exact ⟨rfl, _, rfl, by simp [Pc.remaining]⟩
      · injection hs with hs; subst hs
        exact ⟨rfl, _, rfl, by simp [Pc.remaining]⟩
      · exact absurd hs (by simp)
      · injection hs with hs; subst hs
        exact ⟨rfl, _, rfl, by simp [Pc.remaining]⟩
      · injection hs with hs; subst hs
        exact ⟨rfl, _, rfl, by simp [Pc.remaining]⟩
      · exact absurd hs (by simp)
    | CallOnceThreadSafety =>
      simp only [CallOnceThreadSafety.step] at hs
      cases hpc : s.pc t <;> rw [hpc] at hs <;> simp only at hs
      · split at hs
        · injection hs with hs; subst hs
          exact ⟨rfl, _, rfl, by decide⟩
        · split at hs
          · exact absurd hs (by simp)
          · injection hs with hs; subst hs
            exact ⟨rfl, _, rfl, by decide⟩
      · exact absurd hs (by simp)
      · cases c <;> simp only [newT, construct] at hs <;> (injection hs with hs; subst hs)
        · exact ⟨rfl, _, rfl, by simp [Pc.remaining]⟩
        · exact ⟨rfl, _, rfl, by simp [Pc.remaining]⟩
      · injection hs with hs; subst hs
        exact ⟨rfl, _, rfl, by simp [Pc.remaining]⟩
      · injection hs with hs; subst hs
        exact ⟨rfl, _, rfl, by simp [Pc.remaining]⟩
      · injection hs with hs; subst hs
        exact ⟨rfl, _, rfl, by simp [Pc.remaining]⟩
      · exact absurd hs (by simp)
      · exact absurd hs (by simp)
  · exact absurd hs (by simp)

theorem remaining_update_ge (pc : Nat → Pc) (t : Nat) (v : Pc) (n : Nat) (h : n ≤ t) :
    Conc.remaining (Function.update pc t v) n = Conc.remaining pc n := by
  induction n with
  | zero => rfl
  | succ n ih =>
    have hne : n ≠ t := by omega
    simp only [Conc.remaining, Function.update_noteq hne, ih (by omega)]

theorem remaining_update_lt (pc : Nat → Pc) (t : Nat) (v : Pc) (n : Nat) (h : t < n)
    (hv : v.remaining < (pc t).remaining) :
    Conc.remaining (Function.update pc t v) n < Conc.remaining pc n := by
  induction n with
  | zero => omega
  | succ n ih =>
    by_cases hnt : n = t
    · subst hnt
      simp only [Conc.remaining, Function.update_same,
        remaining_update_ge pc n v n (le_refl n)]
      omega
    · have := ih (by omega)
      simp only [Conc.remaining, Function.update_noteq hnt]
      omega

theorem remaining_entry (n : Nat) : Conc.remaining (fun _ => Pc.entry) n = 7 * n := by
  induction n with
  | zero => rfl
  | succ n ih => simp only [Conc.remaining, ih, Pc.remaining]; omega

theorem run_append (G : GuardedPolicy) (T : ManagedType)
    (xs ys : List (Nat × CtorBehaviour)) (s : Conc) :
    Conc.run G T (xs ++ ys) s = Conc.run G T ys (Conc.run G T xs s) := by
  induction xs generalizing s with
  | nil => rfl
  | cons x xs ih => exact ih _

theorem run_threads (G : GuardedPolicy) (T : ManagedType)
    (xs : List (Nat × CtorBehaviour)) (s : Conc) :
    (Conc.run G T xs s).threads = s.threads := by
  induction xs generalizing s with
  | nil => rfl
  | cons x xs ih =>
    simp only [Conc.run]
    cases hst : Conc.step G T x.2 x.1 s with
    | none => exact ih s
    | some s1 =>
      rw [Option.getD_some, ih s1]
      exact (step_threads G T x.2 x.1 s s1 hst).2.1

/-- No deadlock: while a call has not ended, some thread can move. -/
theorem progress (G : GuardedPolicy) (T : ManagedType) (c : CtorBehaviour) (s : Conc)
    (h : CInv G s) (t : Nat) (ht : t < s.threads) (hnd : (s.pc t).isDone = false) :
    ∃ u, u < s.threads ∧ (Conc.step G T c u s).isSome = true := by
  cases hheld : G.held s with
  | true =>
    obtain ⟨u, hu, hcs⟩ := h.holder hheld
    refine ⟨u, hu, ?_⟩
    have hok := h.ok u hu
    cases G with
    | MutexThreadSafety =>
      simp only [Conc.step, hu, if_true, MutexThreadSafety.step]
      cases hpc : s.pc u <;> rw [hpc] at hcs hok <;>
        simp [GuardedPolicy.inCS] at hcs ⊢
      · split <;> rfl
      · cases c <;> rfl
    | CallOnceThreadSafety =>
      simp only [Conc.step, hu, if_true, CallOnceThreadSafety.step]
      cases hpc : s.pc u <;> rw [hpc] at hcs hok <;>
        simp [GuardedPolicy.inCS] at hcs ⊢
      · cases c <;> rfl
  | false =>
    refine ⟨t, ht, ?_⟩
    have hok := h.ok t ht
    have hidle := idle_of_free G s h hheld t ht
    cases G with
    | MutexThreadSafety =>
      simp only [GuardedPolicy.held] at hheld
      simp only [Conc.step, ht, if_true, MutexThreadSafety.step]
      cases hpc : s.pc t <;> rw [hpc] at hidle hok hnd <;>
        simp [GuardedPolicy.inCS, GuardedPolicy.ok, Pc.isDone, hheld] at hidle hok hnd ⊢
    | CallOnceThreadSafety =>
      simp only [GuardedPolicy.held] at hheld
      simp only [Conc.step, ht, if_true, CallOnceThreadSafety.step]
      cases hpc : s.pc t <;> rw [hpc] at hidle hok hnd <;>
        simp [GuardedPolicy.inCS, GuardedPolicy.ok, Pc.isDone, hheld] at hidle hok hnd ⊢
      · split <;> rfl

/-- Termination: from every state of the invariant the scheduler can bring every call to
its end, in at most as many picks as statements remain. -/
theorem completion (G : GuardedPolicy) (T : ManagedType) (k : Nat) (s : Conc)
    (h : CInv G s) (hk : Conc.remaining s.pc s.threads ≤ k) :
    ∃ ext : List Nat, ext.length ≤ k ∧
      ∀ t, t < s.threads → ((Conc.run G T (completing ext) s).pc t).isDone = true := by
  induction k generalizing s with
  | zero =>
    refine ⟨[], le_refl 0, ?_⟩
    by_contra hcon
    simp only [not_forall] at hcon
    obtain ⟨t, ht, hnd⟩ := hcon
    obtain ⟨u, hu, hst⟩ := progress G T .completes s h t ht (by simpa using hnd)
    obtain ⟨s1, hs1⟩ := Option.isSome_iff_exists.mp hst
    obtain ⟨-, -, v, hv, hlt⟩ := step_threads G T _ u s s1 hs1
    have := remaining_update_lt s.pc u v s.threads hu hlt
    omega
  | succ k ih =>
    by_cases hall : ∀ t, t < s.threads → (s.pc t).isDone = true
    · exact ⟨[], Nat.zero_le _, hall⟩
    · simp only [not_forall] at hall
      obtain ⟨t, ht, hnd⟩ := hall
      obtain ⟨u, hu, hst⟩ := progress G T .completes s h t ht (by simpa using hnd)
      obtain ⟨s1, hs1⟩ := Option.isSome_iff_exists.mp hst
      obtain ⟨-, hth, v, hv, hlt⟩ := step_threads G T _ u s s1 hs1
      have hdec := remaining_update_lt s.pc u v s.threads hu hlt
      have hk1 : Conc.remaining s1.pc s1.threads ≤ k := by
        rw [hv, hth]; omega
      obtain ⟨ext, hlen, hdone⟩ := ih s1 (cinv_step G T _ u s s1 h hs1) hk1
      refine ⟨u :: ext, by simp only [List.length_cons]; omega, ?_⟩
      intro w hw
      simp only [completing, List.map_cons, Conc.run, hs1, Option.getD_some]
      exact hdone w (by rw [hth]; exact hw)

/-- While every constructor completes, `NoThrow` is kept by every step. -/
theorem nothrow_step (G : GuardedPolicy) (T : ManagedType) (t : Nat) (s s1 : Conc)
    (h : NoThrow s) (hs : Conc.step G T .completes t s = some s1) : NoThrow s1 := by
  have key : ∀ (v : Pc) (p : Process) (act : Bool),
      p.world.ctorStarted = p.world.ctorCompleted →
      v ≠ .release .threw → v ≠ .done .threw →
      NoThrow { s.move t v p with onceActive := act } := by
    intro v p act hc h1 h2
    refine ⟨hc, fun u hu => ?_⟩
    by_cases hut : u = t
    · subst hut
      simp only [Conc.move, Function.update_same]
      exact ⟨h1, h2⟩
    · simp only [Conc.move, Function.update_noteq hut]
      exact h.outcomes u hu
  have hderef : ∀ p : Option Addr, deref p ≠ .threw := by
    intro p; cases p <;> simp [deref]
  unfold Conc.step at hs
  split at hs
  · rename_i ht
    have hpt := h.outcomes t ht
    cases G with
    | MutexThreadSafety =>
      simp only [MutexThreadSafety.step] at hs
      cases hpc : s.pc t <;> rw [hpc] at hs hpt <;> simp only at hs
      · split at hs
        · exact absurd hs (by simp)
        · injection hs with hs; subst hs
          exact key _ _ s.onceActive h.counts (by simp) (by simp)
      · split at hs <;> (injection hs with hs; subst hs)
        · exact key _ _ s.onceActive h.counts (by simp) (by simp)
        · exact key _ _ s.onceActive h.counts (by simp) (by simp)
      · simp only [newT, construct] at hs
        injection hs with hs; subst hs
        exact key _ _ s.onceActive (by simp [h.counts]) (by simp) (by simp)
      · injection hs with hs; subst hs
        exact key _ _ s.onceActive h.counts (by simp) (by simp)
      · exact absurd hs (by simp)
      · injection hs with hs; subst hs
        exact key _ _ s.onceActive h.counts (by simpa using hderef _) (by simp)
      · rename_i o
        injection hs with hs; subst hs
        exact key _ _ s.onceActive h.counts (by simp)
          (by intro hc; injection hc with hc; subst hc; exact hpt.1 rfl)
      · exact absurd hs (by simp)
    | CallOnceThreadSafety =>
      simp only [CallOnceThreadSafety.step] at hs
      cases hpc : s.pc t <;> rw [hpc] at hs hpt <;> simp only at hs
      · split at hs
        · injection hs with hs; subst hs
          exact key _ _ s.onceActive h.counts (by simp) (by simp)
        · split at hs
          · exact absurd hs (by simp)
          · injection hs with hs; subst hs
            exact key _ _ true h.counts (by simp) (by simp)
      · exact absurd hs (by simp)
      · simp only [newT, construct] at hs
        injection hs with hs; subst hs
        exact key _ _ s.onceActive (by simp [h.counts]) (by simp) (by simp)
      · injection hs with hs; subst hs
        exact key _ _ s.onceActive h.counts (by simp) (by simp)
      · injection hs with hs; subst hs
        exact key _ _ false h.counts (by simp) (by simp)
      · injection hs with hs; subst hs
        exact key _ _ s.onceActive h.counts (by simp) (by simpa using hderef _)
      · exact absurd hs (by simp)
      · exact absurd hs (by simp)
  · exact absurd hs (by simp)

theorem nothrow_run (G : GuardedPolicy) (T : ManagedType) (sched : List Nat) (s : Conc)
    (h : NoThrow s) : NoThrow (Conc.run G T (completing sched) s) := by
  induction sched generalizing s with
  | nil => exact h
  | cons x xs ih =>
    simp only [completing, List.map_cons, Conc.run]
    cases hst : Conc.step G T .completes x s with
    | none => exact ih s h
    | some s1 => exact ih s1 (nothrow_step G T x s s1 h hst)

theorem nothrow_start (T : ManagedType) (G : GuardedPolicy) (n : Nat) :
    NoThrow (Conc.start T G n) := by
  refine ⟨?_, fun t _ => ?_⟩
  · cases G <;> rfl
  · simp [Conc.start]

/-- In a state of the invariant the constructor has completed at most once, and the calls
that have returned a reference have returned the stored instance. -/
theorem cinv_safe (G : GuardedPolicy) (s : Conc) (h : CInv G s) :
    s.shared.world.ctorCompleted ≤ 1 ∧
    ∀ t a, t < s.threads → s.pc t = .done (.ref a) →
      G.toPolicy.handle s.shared = some a := by
  constructor
  · rcases h.settled with ⟨u, a, hu, hua⟩ | ⟨-, hc⟩
    · have hok := h.ok u hu
      rw [hua] at hok
      cases G <;> simp only [GuardedPolicy.ok] at hok
      · rw [hok.2.2.2]
      · rw [hok.2.2.2.2]
    · rw [hc]
      cases G.toPolicy.handle s.shared <;> simp [Option.toList]
  · intro t a ht hpc
    have hok := h.ok t ht
    rw [hpc] at hok
    have hr : Returned G s (.ref a) := by
      cases G <;> simpa only [GuardedPolicy.ok] using hok
    rcases hr with hr | ⟨b, hb, hh⟩
    · cases hr
    · injection hb with hb
      subst hb
      exact hh

/-- When every call has ended and none with an exception, all calls have returned the one
object that was constructed. -/
theorem cinv_all_done (G : GuardedPolicy) (s : Conc) (h : CInv G s) (hn : NoThrow s)
    (hpos : 0 < s.threads) (hall : ∀ t, t < s.threads → (s.pc t).isDone = true) :
    s.shared.world.ctorStarted = 1 ∧ s.shared.world.ctorCompleted = 1 ∧
    ∃ a, s.shared.world.live = [a] ∧ G.toPolicy.handle s.shared = some a ∧
      ∀ t, t < s.threads → s.pc t = .done (.ref a) := by
  have hret : ∀ t, t < s.threads →
      ∃ a, s.pc t = .done (.ref a) ∧ G.toPolicy.handle s.shared = some a := by
    intro t ht
    have hd := hall t ht
    have hok := h.ok t ht
    have hnt := (hn.outcomes t ht).2
    cases hpc : s.pc t with
    | done o =>
      rw [hpc] at hok hnt
      have hr : Returned G s o := by
        cases G <;> simpa only [GuardedPolicy.ok] using hok
      rcases hr with hr | ⟨b, hb, hh⟩
      · subst hr; exact absurd rfl hnt
      · subst hb; exact ⟨b, rfl, hh⟩
    | _ => rw [hpc] at hd; simp [Pc.isDone] at hd
  obtain ⟨a, -, ha⟩ := hret 0 hpos
  have hset : s.shared.world.live = (G.toPolicy.handle s.shared).toList ∧
      s.shared.world.ctorCompleted = (G.toPolicy.handle s.shared).toList.length := by
    rcases h.settled with ⟨u, b, hu, hub⟩ | hst
    · have := hall u hu
      rw [hub] at this
      simp [Pc.isDone] at this
    · exact hst
  rw [ha] at hset
  refine ⟨by rw [hn.counts, hset.2]; rfl, by rw [hset.2]; rfl, a, hset.1, ha, ?_⟩
  intro t ht
  obtain ⟨b, hb, hh⟩ := hret t ht
  rw [ha] at hh
  injection hh with hh
  subst hh
  exact hb

/-- A thread that runs alone through `MutexThreadSafety<T>::getInstance` ends with the
outcome and leaves the shared state that the sequential function computes. -/
theorem mutex_alone (T : ManagedType) (c : CtorBehaviour) (p : Process) (n : Nat)
    (hn : 0 < n) (hu : p.statics.mutexLocked = false) :
    (Conc.run .MutexThreadSafety T (List.replicate 6 (0, c))
        ⟨p, false, n, fun _ => .entry⟩).shared = (MutexThreadSafety.getInstance T c p).2 ∧
    (Conc.run .MutexThreadSafety T (List.replicate 6 (0, c))
        ⟨p, false, n, fun _ => .entry⟩).pc 0
      = .done (MutexThreadSafety.getInstance T c p).1 := by
  obtain ⟨⟨l, e, ls, ml, mi, fl, oi⟩, w, tr⟩ := p
  simp only at hu
  subst hu
  cases mi <;> cases c <;>
    simp [Conc.run, Conc.step, hn, MutexThreadSafety.step, MutexThreadSafety.getInstance,
      MutexThreadSafety.lock, MutexThreadSafety.unlock, Process.log, Conc.move, newT,
      construct, deref, List.replicate]

/-- A thread that runs alone through `CallOnceThreadSafety<T>::getInstance` ends with the
outcome and leaves the shared state that the sequential function computes. -/
theorem callOnce_alone (T : ManagedType) (c : CtorBehaviour) (p : Process) (n : Nat)
    (hn : 0 < n) (a : Addr) (hf : p.statics.onceFlag = true → p.statics.onceInstance = some a) :
    (Conc.run .CallOnceThreadSafety T (List.replicate 5 (0, c))
        ⟨p, false, n, fun _ => .entry⟩).shared = (CallOnceThreadSafety.getInstance T c p).2 ∧
    (Conc.run .CallOnceThreadSafety T (List.replicate 5 (0, c))
        ⟨p, false, n, fun _ => .entry⟩).pc 0
      = .done (CallOnceThreadSafety.getInstance T c p).1 := by
  obtain ⟨⟨l, e, ls, ml, mi, fl, oi⟩, w, tr⟩ := p
  simp only at hf
  cases fl
  · cases c <;>
      simp [Conc.run, Conc.step, hn, CallOnceThreadSafety.step,
        CallOnceThreadSafety.getInstance, CallOnceThreadSafety.init, call_once, Conc.move,
        newT, construct, deref, List.replicate]
  · rw [hf rfl]
    simp [Conc.run, Conc.step, hn, CallOnceThreadSafety.step,
      CallOnceThreadSafety.getInstance, call_once, Conc.move, deref, List.replicate]

/-- Whatever the constructor does in each run, after every interleaving the constructor has
completed at most once and the calls that have returned a reference agree. -/
theorem concurrent_safety (T : ManagedType) (G : GuardedPolicy) (n : Nat)
    (xs : List (Nat × CtorBehaviour)) :
    (Conc.run G T xs (Conc.start T G n)).shared.world.ctorCompleted ≤ 1 ∧
    ∀ t u a b, t < n → u < n →
      (Conc.run G T xs (Conc.start T G n)).pc t = .done (.ref a) →
      (Conc.run G T xs (Conc.start T G n)).pc u = .done (.ref b) → a = b := by
  have hI := cinv_run G T xs _ (cinv_start T G n)
  have hth : (Conc.run G T xs (Conc.start T G n)).threads = n := run_threads G T _ _
  obtain ⟨hle, hret⟩ := cinv_safe G _ hI
  refine ⟨hle, fun t u a b ht hu hta hub => ?_⟩
  have h1 := hret t a (by rw [hth]; exact ht) hta
  have h2 := hret u b (by rw [hth]; exact hu) hub
  rw [h1] at h2
  exact Option.some.inj h2

/-! ## The claim: concurrent first access -/

/-- C4: `n ≥ 1` threads (so also 2, or 8) call `getInstance` for the first time at once on
`Singleton<T, LazyCreation, G>`, `G` the mutex-guarded or the call-once strategy, no
constructor run throwing. After every interleaving `sched` of their statements: the
constructor has completed at most once and any two calls that have returned have returned
the same object; if every call has ended, the constructor has run exactly once and all
threads hold the one live object, which is the stored instance; while some call has not
yet ended some thread can move (no deadlock); and the interleaving can be continued so
that every call ends, within `7 * n` further picks. -/
theorem concurrent_first_access (T : ManagedType) (G : GuardedPolicy) (n : Nat)
    (hn : 0 < n) (sched : List Nat) :
    (Conc.run G T (completing sched) (Conc.start T G n)).shared.world.ctorCompleted ≤ 1 ∧
    (∀ t u a b, t < n → u < n →
      (Conc.run G T (completing sched) (Conc.start T G n)).pc t = .done (.ref a) →
      (Conc.run G T (completing sched) (Conc.start T G n)).pc u = .done (.ref b) →
      a = b) ∧
    ((∀ t, t < n →
        ((Conc.run G T (completing sched) (Conc.start T G n)).pc t).isDone = true) →
      (Conc.run G T (completing sched) (Conc.start T G n)).shared.world.ctorStarted = 1 ∧
      (Conc.run G T (completing sched) (Conc.start T G n)).shared.world.ctorCompleted = 1 ∧
      ∃ a, (Conc.run G T (completing sched) (Conc.start T G n)).shared.world.live = [a] ∧
        G.toPolicy.handle (Conc.run G T (completing sched) (Conc.start T G n)).shared
          = some a ∧
        ∀ t, t < n →
          (Conc.run G T (completing sched) (Conc.start T G n)).pc t = .done (.ref a)) ∧
    ((∃ t, t < n ∧
        ((Conc.run G T (completing sched) (Conc.start T G n)).pc t).isDone = false) →
      ∃ u, u < n ∧ (Conc.step G T .completes u
        (Conc.run G T (completing sched) (Conc.start T G n))).isSome = true) ∧
    ∃ ext : List Nat, ext.length ≤ 7 * n ∧
      ∀ t, t < n →
        ((Conc.run G T (completing (sched ++ ext)) (Conc.start T G n)).pc t).isDone
          = true := by
  have hI := cinv_run G T (completing sched) _ (cinv_start T G n)
  have hN := nothrow_run G T sched _ (nothrow_start T G n)
  have hth : (Conc.run G T (completing sched) (Conc.start T G n)).threads = n :=
    run_threads G T _ _
  obtain ⟨hle, hret⟩ := cinv_safe G _ hI
  refine ⟨hle, ?_, ?_, ?_, ?_⟩
  · intro t u a b ht hu hta hub
    have h1 := hret t a (by rw [hth]; exact ht) hta
    have h2 := hret u b (by rw [hth]; exact hu) hub
    rw [h1] at h2
    exact Option.some.inj h2
  · intro hall
    have := cinv_all_done G _ hI hN (by rw [hth]; exact hn) (by rw [hth]; exact hall)
    rw [hth] at this
    exact this
  · rintro ⟨t, ht, hnd⟩
    have := progress G T .completes _ hI t (by rw [hth]; exact ht) hnd
    rw [hth] at this
    exact this
  · have hrem : ∀ (xs : List (Nat × CtorBehaviour)) (s : Conc),
        Conc.remaining (Conc.run G T xs s).pc s.threads ≤ Conc.remaining s.pc s.threads := by
      intro xs
      induction xs with
      | nil => intro s; exact le_refl _
      | cons x xs ih =>
        intro s
        simp only [Conc.run]
        cases hst : Conc.step G T x.2 x.1 s with
        | none => exact ih s
        | some s1 =>
          obtain ⟨hx, hth1, v, hv, hlt⟩ := step_threads G T _ _ s s1 hst
          have h1 := ih s1
          have h2 := remaining_update_lt s.pc x.1 v s.threads hx hlt
          rw [Option.getD_some]
          rw [hth1, hv] at h1
          omega
    have hk : Conc.remaining (Conc.run G T (completing sched) (Conc.start T G n)).pc
        (Conc.run G T (completing sched) (Conc.start T G n)).threads ≤ 7 * n := by
      have := hrem (completing sched) (Conc.start T G n)
      rw [hth]
      have h0 : Conc.remaining (Conc.start T G n).pc (Conc.start T G n).threads = 7 * n :=
        remaining_entry n
      rw [h0] at this
      exact this
    obtain ⟨ext, hlen, hdone⟩ := completion G T (7 * n) _ hI hk
    refine ⟨ext, hlen, fun t ht => ?_⟩
    have : completing (sched ++ ext) = completing sched ++ completing ext := by
      simp [completing]
    rw [this, run_append]
    exact hdone t (by rw [hth]; exact ht)

/-- Eight threads on the mutex-guarded strategy, thread 3 first through the guarded
region while threads 0 and 5 wait for the mutex. -/
theorem concurrent_first_access_witness :
    0 < 8 ∧
    (Conc.run .MutexThreadSafety MySingleton (completing [3, 0, 3, 5, 3, 3, 3, 0, 3, 0, 5])
      (Conc.start MySingleton .MutexThreadSafety 8)).shared.world.ctorCompleted ≤ 1 ∧
    (Conc.run .MutexThreadSafety MySingleton (completing [3, 0, 3, 5, 3, 3, 3, 0, 3, 0, 5])
      (Conc.start MySingleton .MutexThreadSafety 8)).pc 3 = .done (.ref (.heap 0)) :=
  ⟨by decide,
    (concurrent_first_access MySingleton .MutexThreadSafety 8 (by decide)
      [3, 0, 3, 5, 3, 3, 3, 0, 3, 0, 5]).1,
    by decide⟩

end OsKolok
